import Mathlib

set_option maxHeartbeats 1000000
set_option maxRecDepth 4000

/-- An XML element node: tag name, attribute list, child elements.
Namespaced names from the source (`inkex.addNS(tag, ns)`) are modelled as
`"ns:tag"` strings. -/
inductive Node : Type where
  | mk (tag : String) (attrib : List (String × String)) (children : List Node)

mutual

def nodeDecEq : (a b : Node) → Decidable (a = b)
  | .mk t1 a1 c1, .mk t2 a2 c2 =>
    if h1 : t1 = t2 then
      if h2 : a1 = a2 then
        match nodeListDecEq c1 c2 with
        | isTrue h3 => isTrue (by rw [h1, h2, h3])
        | isFalse h3 => isFalse (by intro h; injection h; contradiction)
      else isFalse (by intro h; injection h; contradiction)
    else isFalse (by intro h; injection h; contradiction)

def nodeListDecEq : (a b : List Node) → Decidable (a = b)
  | [], [] => isTrue rfl
  | [], _ :: _ => isFalse (by intro h; cases h)
  | _ :: _, [] => isFalse (by intro h; cases h)
  | x :: xs, y :: ys =>
    match nodeDecEq x y, nodeListDecEq xs ys with
    | isTrue h1, isTrue h2 => isTrue (by rw [h1, h2])
    | isFalse h1, _ => isFalse (by intro h; injection h; contradiction)
    | _, isFalse h2 => isFalse (by intro h; injection h; contradiction)

end

instance : DecidableEq Node := nodeDecEq

def exceptDecEq {ε α : Type} [DecidableEq ε] [DecidableEq α] :
    (a b : Except ε α) → Decidable (a = b)
  | .error e1, .error e2 =>
    if h : e1 = e2 then isTrue (by rw [h])
    else isFalse (by intro hh; injection hh; contradiction)
  | .error _, .ok _ => isFalse (by intro hh; cases hh)
  | .ok _, .error _ => isFalse (by intro hh; cases hh)
  | .ok a1, .ok a2 =>
    if h : a1 = a2 then isTrue (by rw [h])
    else isFalse (by intro hh; injection hh; contradiction)

instance {ε α : Type} [DecidableEq ε] [DecidableEq α] :
    DecidableEq (Except ε α) := exceptDecEq

/-- Split a character list at every occurrence of `sep` (Python
`str.split(sep)` for a one-character separator; an empty input gives one
empty field). -/
def splitSepChars (sep : Char) : List Char → List (List Char)
  | [] => [[]]
  | c :: cs =>
    let r := splitSepChars sep cs
    if c = sep then [] :: r
    else
      match r with
      | [] => [[c]]
      | g :: gs => (c :: g) :: gs

/-- Python `str.split(sep)` for a one-character separator, on `String`. -/
def splitSep (sep : Char) (s : String) : List String :=
  (splitSepChars sep s.data).map (fun l => ⟨l⟩)

/-- Join strings with a separator (Python `sep.join(...)`). -/
def joinWith (sep : String) : List String → String
  | [] => ""
  | [s] => s
  | s :: rest => s ++ sep ++ joinWith sep rest

/-- Python whitespace test for `str.strip`. -/
def isPyWhitespace (c : Char) : Bool :=
  c = ' ' || c = '\t' || c = '\n' || c = '\r'

/-- Python `str.strip()`: remove leading and trailing whitespace. -/
def stripStr (s : String) : String :=
  ⟨((s.data.dropWhile isPyWhitespace).reverse.dropWhile isPyWhitespace).reverse⟩

/-- Python `str.startswith(pre)`. -/
def strStartsWith (s pre : String) : Bool :=
  pre.data.isPrefixOf s.data

/-- Python slicing `s[n:]`: drop the first `n` characters. -/
def strDrop (s : String) (n : Nat) : String :=
  ⟨s.data.drop n⟩

/-- Tag name of a node. -/
def Node.tag : Node → String
  | .mk t _ _ => t

/-- Attribute list of a node. -/
def Node.attrib : Node → List (String × String)
  | .mk _ a _ => a

/-- Child list of a node. -/
def Node.children : Node → List Node
  | .mk _ _ c => c

/-- `node.get(key)`: first value bound to `key` in the attribute list. -/
def getAttr (n : Node) (key : String) : Option String :=
  (n.attrib.find? (fun kv => kv.1 == key)).map (fun kv => kv.2)

mutual

/-- `node.iter()`: depth-first document-order traversal (the node itself first,
then each child subtree in order). -/
def Node.iter : Node → List Node
  | .mk t a cs => .mk t a cs :: iterList cs

/-- Traversal of a forest, in order. -/
def iterList : List Node → List Node
  | [] => []
  | c :: cs => c.iter ++ iterList cs

end

/-- The sequence of `id` attributes of all elements of a tree, in document
(depth-first) order. -/
def subtree_ids (n : Node) : List String :=
  n.iter.filterMap (fun m => getAttr m "id")

/-- The id sequence of a forest, in document order. -/
def forest_ids (cs : List Node) : List String :=
  (iterList cs).filterMap (fun m => getAttr m "id")

/-- Global constant `SVG_SHAPES` from the source. -/
def SVG_SHAPES : List String := ["rect", "circle", "ellipse", "line", "polyline", "polygon"]

/-- `is_group`: check node for group tag. -/
def is_group (node : Node) : Bool := node.tag == "svg:g"

/-- `is_path`: check node for path tag. -/
def is_path (node : Node) : Bool := node.tag == "svg:path"

/-- `is_basic_shape`: check node for SVG basic shape tag. -/
def is_basic_shape (node : Node) : Bool :=
  SVG_SHAPES.any (fun t => node.tag == "svg:" ++ t)

/-- `is_custom_shape`: check node for Inkscape custom shape type
(presence of the `sodipodi:type` attribute). -/
def is_custom_shape (node : Node) : Bool := (getAttr node "sodipodi:type").isSome

/-- `is_shape`: SVG basic shape tag or Inkscape custom shape type. -/
def is_shape (node : Node) : Bool := is_basic_shape node || is_custom_shape node

/-- `has_path_effect`: check node for Inkscape path-effect attribute. -/
def has_path_effect (node : Node) : Bool := (getAttr node "inkscape:path-effect").isSome

/-- `is_modifiable_path`: check node for editable path data. -/
def is_modifiable_path (node : Node) : Bool :=
  is_path node && !(has_path_effect node || is_custom_shape node)

/-- `is_image`: check node for image tag. -/
def is_image (node : Node) : Bool := node.tag == "svg:image"

/-- `is_text`: check node for text tag. -/
def is_text (node : Node) : Bool := node.tag == "svg:text"

/-- `does_pathops`: check whether node is supported by Inkscape path
operations. -/
def does_pathops (node : Node) : Bool :=
  is_path node || is_shape node || is_text node

/-- Python's `list.remove(x)`: drop the first occurrence of `x`. -/
def eraseFirst (l : List (Option String)) (x : Option String) :
    List (Option String) :=
  match l with
  | [] => []
  | y :: ys => if y = x then ys else y :: eraseFirst ys x

/-- `z_iter(node, alist)` from the source, with `node.iter()` passed as the
explicit element list: yield ids of elements in document order whose id is a
member of `alist`, removing the first matching entry of `alist` each time.
Entries of `alist` are `Option String` because the source appends
`node.get('id')`, which can be `None`; an element whose id is `None` is
skipped. -/
def z_iter (elems : List Node) (alist : List (Option String)) : List String :=
  match elems with
  | [] => []
  | e :: es =>
    match getAttr e "id" with
    | none => z_iter es alist
    | some i =>
      if some i ∈ alist then i :: z_iter es (eraseFirst alist (some i))
      else z_iter es alist

/-- `range(0, stop, step)` of Python for a positive `step`: the multiples of
`step` below `stop`. (For `step = 0` Python raises `ValueError`; this model
returns `[]` there, a case no caller reaches, see claim C10.) -/
def rangeStep (stop step : Nat) : List Nat :=
  (List.range ((stop + step - 1) / step)).map (fun i => i * step)

/-- `chunks(alist, max_len)`: chunk a list into sublists of `max_len` length,
via Python's `range`/slice idiom `alist[i:i+max_len]`. -/
def chunks {α : Type} (alist : List α) (max_len : Nat) : List (List α) :=
  (rangeStep alist.length max_len).map (fun i => (alist.drop i).take max_len)

/-- Observable side effects of the script, in order of occurrence.
`setAttrib` records an in-place attribute write on a document node
(identified by its id attribute), `spawn` a subprocess invocation,
`debugMsg`/`debugList` calls to `inkex.debug`, `errorMsg` a user-facing
`inkex.errormsg`, and the file events the creation, re-parsing and removal
of the temporary working copy. -/
inductive Event : Type where
  | debugMsg (s : String)
  | debugList (cmd : List String)
  | errorMsg (s : String)
  | spawn (cmd : List String)
  | writeFile (name : String)
  | parseFile (name : String)
  | removeFile (name : String)
  | setAttrib (nodeId : Option String) (prop val : String)
deriving DecidableEq

/-- `Event.isDebug`: the event is a debug trace line. -/
def Event.isDebug : Event → Bool
  | .debugMsg _ => true
  | .debugList _ => true
  | _ => false

/-- `Event.isSpawn`: the event is a subprocess invocation. -/
def Event.isSpawn : Event → Bool
  | .spawn _ => true
  | _ => false

/-- `Event.isSetAttrib`: the event is an in-place node attribute write. -/
def Event.isSetAttrib : Event → Bool
  | .setAttrib _ _ _ => true
  | _ => false

/-- `Event.isErrorMsg`: the event is a user-facing error message. -/
def Event.isErrorMsg : Event → Bool
  | .errorMsg _ => true
  | _ => false

/-- `Event.isFileEvent`: the event touches the filesystem. -/
def Event.isFileEvent : Event → Bool
  | .writeFile _ => true
  | .parseFile _ => true
  | .removeFile _ => true
  | _ => false

/-- Result of one subprocess: return code and captured output streams.
`err` is `Option` because the source tests `err is not None`. -/
structure ProcResult : Type where
  returncode : Int
  out : String
  err : Option String

/-- The external environment: what a spawned command returns, and the
document obtained by re-parsing a file that the external processes have
been writing to. -/
structure World : Type where
  exec : List String → ProcResult
  parse : String → Node

/-- The parsed extension options (see `PathOps.__init__`). `max_ops` is the
GUI integer option (spinbox, non-negative); Python's falsy test `x or d`
on an int is `x == 0`. -/
structure Options : Type where
  ink_verb : String
  max_ops : Nat
  recursive_sel : Bool
  keep_top : Bool
  default_stroke : String
  default_stroke_width : String
  dry_run : Bool

/-- The option defaults declared in `PathOps.__init__`. -/
def default_options : Options :=
  { ink_verb := "SelectionDiff", max_ops := 500, recursive_sel := true,
    keep_top := true, default_stroke := "#000000",
    default_stroke_width := "1px", dry_run := false }

/-- `run(cmd_format, ...)` from the source: spawn the command; on return code
0 return captured stdout, otherwise surface the captured stderr (when
present) as a user-facing message and return `None`. -/
def run (world : World) (cmd_format : List String) (verbose : Bool) :
    Option String × List Event :=
  let dbg : List Event := if verbose then [.debugList cmd_format] else []
  let myproc := world.exec cmd_format
  if myproc.returncode = 0 then (some myproc.out, dbg ++ [.spawn cmd_format])
  else
    match myproc.err with
    | some e => (none, dbg ++ [.spawn cmd_format, .errorMsg e])
    | none => (none, dbg ++ [.spawn cmd_format])

/-- The command list built by `run_pathops`, mirroring the imperative
`cmdlist.append` loop of the source. -/
def pathops_cmdlist (svgfile top_path : String) (id_list : List String)
    (ink_verb : String) : List String :=
  let cmdlist := ["inkscape"]
  let cmdlist := id_list.foldl
    (fun acc node_id =>
      acc ++ ["--select=" ++ top_path, "--verb=EditDuplicate",
              "--select=" ++ node_id, "--verb=" ++ ink_verb,
              "--verb=EditDeselect"]) cmdlist
  cmdlist ++ ["--verb=FileSave", "--verb=FileQuit", "-f", svgfile]

/-- `run_pathops`: run path ops with `top_path` on a list of other object
ids; in dry-run mode only print the command list. -/
def run_pathops (world : World) (svgfile top_path : String)
    (id_list : List String) (ink_verb : String) (dry_run : Bool) : List Event :=
  let cmdlist := pathops_cmdlist svgfile top_path id_list ink_verb
  if dry_run then [.debugList cmdlist] else (run world cmdlist false).2

/-- Style dictionary lookup (Python `dict.get`). -/
def styleGet (sdict : List (String × String)) (key : String) : Option String :=
  (sdict.find? (fun kv => kv.1 == key)).map (fun kv => kv.2)

/-- Style dictionary update (Python `d[k] = v`): overwrite in place if the
key is present, append otherwise. -/
def styleSet (sdict : List (String × String)) (key val : String) :
    List (String × String) :=
  if (sdict.find? (fun kv => kv.1 == key)).isSome then
    sdict.map (fun kv => if kv.1 == key then (key, val) else kv)
  else sdict ++ [(key, val)]

/-- Modelled from the spec: `simplestyle.parseStyle`, from the external
Inkscape helper library (not part of this repository): split a `style`
attribute value on `;`, each nonempty item on `:`, and build an
insertion-ordered dictionary. `None` parses to the empty dictionary. -/
def parseStyle (s : Option String) : List (String × String) :=
  match s with
  | none => []
  | some str =>
    ((splitSep ';' str).filterMap (fun item =>
        if item = "" then none
        else match splitSep ':' item with
          | [k, v] => some (stripStr k, stripStr v)
          | _ => none)).foldl
      (fun acc kv => styleSet acc kv.1 kv.2) []

/-- Modelled from the spec: `simplestyle.formatStyle`, from the external
Inkscape helper library: join the dictionary back into a `k:v;...` string. -/
def formatStyle (sdict : List (String × String)) : String :=
  joinWith ";" (sdict.map (fun kv => kv.1 ++ ":" ++ kv.2))

/-- Modelled from the spec: `self.unittouu`, the host's unit-to-user-unit
conversion of a width string such as `"1px"` (external `inkex` base class;
its numeric value is irrelevant to every claim, so the converted width is
modelled as the input string). -/
def unittouu (s : String) : String := s

/-- `PathOps.update_attrib`: update checked property — writes the node
attribute only when not in dry-run mode. The write is recorded as a
`setAttrib` event on the node's id. -/
def update_attrib (opts : Options) (node : Node) (prop val : String) :
    List Event :=
  if opts.dry_run then [] else [.setAttrib (getAttr node "id") prop val]

/-- `PathOps.check_props`: check (and, outside dry-run mode, modify) stroke
properties of a node when the configured verb is `SelectionCutPath`.
Only `style`/`stroke` attributes are touched; ids, tags and children are
never modified, so the document tree value is unchanged and the writes are
reported as events. -/
def check_props (opts : Options) (node : Node) : List Event :=
  if opts.ink_verb = "SelectionCutPath" then
    let sdict := parseStyle (getAttr node "style")
    let fill_color : String := (styleGet sdict "fill").getD ""
    let fill_color : Option String :=
      if fill_color = "none" || strStartsWith fill_color "url(" then none
      else some fill_color
    let stroke_color : String :=
      match fill_color with
      | none => opts.default_stroke
      | some s => if s = "" then opts.default_stroke else s
    let stroke_width : String := unittouu opts.default_stroke_width
    let sdict :=
      if (styleGet sdict "stroke").isNone || styleGet sdict "stroke" = some "none" then
        styleSet sdict "stroke" stroke_color
      else sdict
    let strokeEvents :=
      if getAttr node "stroke" = some "none" then
        update_attrib opts node "stroke" stroke_color
      else []
    let sdict :=
      if (styleGet sdict "stroke-width").isNone then
        styleSet sdict "stroke-width" stroke_width
      else sdict
    strokeEvents ++ update_attrib opts node "style" (formatStyle sdict)
  else []

mutual

/-- `PathOps.recurse_selection`: recursively process a selected node, adding
the ids of checked elements to `id_list`.  Returns the extended id list and
the attribute-write events of the `check_props` calls made along the way. -/
def recurse_selection (opts : Options) :
    Node → List (Option String) → Nat → Nat →
    List (Option String) × List Event
  | .mk t a cs, id_list, level, current =>
    let node := Node.mk t a cs
    let current := current + 1
    let step :=
      if level = 0 ∨ current ≤ level then
        if is_group node then
          recurse_children opts cs id_list level current
        else (id_list, [])
      else (id_list, [])
    if does_pathops node then
      (step.1 ++ [getAttr node "id"], step.2 ++ check_props opts node)
    else step

/-- The `for child in node:` loop inside `recurse_selection`. -/
def recurse_children (opts : Options) :
    List Node → List (Option String) → Nat → Nat →
    List (Option String) × List Event
  | [], id_list, _, _ => (id_list, [])
  | c :: cs, id_list, level, current =>
    let first := recurse_selection opts c id_list level current
    let rest := recurse_children opts cs first.1 level current
    (rest.1, first.2 ++ rest.2)

end

/-- The user-facing message for a selection with fewer than two eligible
elements. -/
def requiresTwoMsg : String :=
  "This extension requires at least 2 elements " ++
  "of type path, shape or text. " ++
  "The elements can be part of selected groups, " ++
  "or directly selected."

/-- The flattened id list produced from the selection by `get_selected_ids`
(before its length check): the fold of `recurse_selection` over the selected
nodes, at recursion level 0 (unlimited) or 1 (one group level) per the
`recursive_sel` option. -/
def selection_flatten (opts : Options) (selected : List Node) :
    List (Option String) × List Event :=
  let level : Nat := if opts.recursive_sel then 0 else 1
  selected.foldl
    (fun acc n =>
      let r := recurse_selection opts n acc.1 level 0
      (r.1, acc.2 ++ r.2))
    ([], [])

/-- The id component of `selection_flatten`. -/
def selection_ids (opts : Options) (selected : List Node) :
    List (Option String) :=
  (selection_flatten opts selected).1

/-- `PathOps.get_selected_ids`: return the flattened list of ids valid for
path operations, or `none` (with the "requires at least 2 elements" message)
when fewer than two were found. -/
def get_selected_ids (opts : Options) (selected : List Node) :
    Option (List (Option String)) × List Event :=
  let r := selection_flatten opts selected
  if r.1.length < 2 then (none, r.2 ++ [.errorMsg requiresTwoMsg])
  else (some r.1, r.2)

/-- `PathOps.get_sorted_ids`: return the id of the top-most object and the
list of the other ids, z-sorted.  The source's `sorted_ids.pop()` raises
`IndexError` on an empty list, modelled as the `.error` case. -/
def get_sorted_ids (opts : Options) (root : Node) (selected : List Node) :
    Except String (Option String × Option (List String)) × List Event :=
  match get_selected_ids opts selected with
  | (none, evs) => (.ok (none, none), evs)
  | (some id_list, evs) =>
    let sorted_ids := z_iter root.iter id_list
    match sorted_ids.getLast? with
    | none => (.error "IndexError: pop from empty list", evs)
    | some top_path => (.ok (some top_path, some sorted_ids.dropLast), evs)

mutual

/-- First node of a subtree, in depth-first document order, satisfying `p`
(the xpath queries of the source return document-order node sets, of which
the callers take the first). -/
def findFirst (p : Node → Bool) : Node → Option Node
  | .mk t a cs =>
    if p (.mk t a cs) then some (.mk t a cs) else findFirstList p cs

/-- `findFirst` over a forest, in order. -/
def findFirstList (p : Node → Bool) : List Node → Option Node
  | [] => none
  | c :: cs =>
    match findFirst p c with
    | some d => some d
    | none => findFirstList p cs

end

mutual

/-- Rewrite the first node (depth-first document order) satisfying `p` with
`f`, leaving the rest of the tree unchanged; the flag reports whether a node
was found. -/
def mapFirst (p : Node → Bool) (f : Node → Node) : Node → Node × Bool
  | .mk t a cs =>
    if p (.mk t a cs) then (f (.mk t a cs), true)
    else (.mk t a (mapFirstList p f cs).1, (mapFirstList p f cs).2)

/-- `mapFirst` over a forest, in order. -/
def mapFirstList (p : Node → Bool) (f : Node → Node) :
    List Node → List Node × Bool
  | [] => ([], false)
  | c :: cs =>
    if (mapFirst p f c).2 then ((mapFirst p f c).1 :: cs, true)
    else (c :: (mapFirstList p f cs).1, (mapFirstList p f cs).2)

end

/-- Append a child element (`inkex.etree.SubElement` / `root.append`). -/
def appendChild (n : Node) (c : Node) : Node :=
  .mk n.tag n.attrib (n.children ++ [c])

/-- The xpath lookup `/svg:svg//svg:defs` of `get_defs`: the first `defs`
descendant of the `svg:svg` document root, in document order. -/
def find_defs (root : Node) : Option Node :=
  if root.tag == "svg:svg" then findFirst (fun n => n.tag == "svg:defs") root
  else none

/-- `get_defs(node)`: find `<defs>` in the document, or create (and append
to the root) a fresh empty one.  Returns the defs element and the possibly
extended root. -/
def get_defs (root : Node) : Node × Node :=
  match find_defs root with
  | some d => (d, root)
  | none =>
    let d := Node.mk "svg:defs" [] []
    (d, appendChild root d)

/-- `Effect.getElementById`: first element of the document, in document
order, whose `id` attribute equals `eid`. -/
def getElementById (root : Node) (eid : String) : Option Node :=
  findFirst (fun n => getAttr n "id" == some eid) root

/-- `PathOps.get_tagrefs(node)`: the `inkscape:tag/inkscape:tagref` children
of `node`, in document order. -/
def get_tagrefs (defs : Node) : List Node :=
  (defs.children.filter (fun c => c.tag == "inkscape:tag")).flatMap
    (fun t => t.children.filter (fun c => c.tag == "inkscape:tagref"))

/-- The positions `(j, k)` (index of the `inkscape:tag` child within `defs`,
index of the `inkscape:tagref` child within that tag) of the tagrefs
enumerated by `get_tagrefs`, in the same order. -/
def tagref_positions (defs : Node) : List (Nat × Nat) :=
  defs.children.enum.flatMap (fun jt =>
    if jt.2.tag == "inkscape:tag" then
      jt.2.children.enum.filterMap (fun kc =>
        if kc.2.tag == "inkscape:tagref" then some (jt.1, kc.1) else none)
    else [])

/-- The node at tagref position `p` of `defs`. -/
def tagref_at (defs : Node) (p : Nat × Nat) : Option Node :=
  (defs.children.get? p.1).bind (fun t => t.children.get? p.2)

/-- The id referenced by the tagref at position `p`: its `xlink:href`
attribute with the leading character (`#`) stripped, as in the source's
`tagref.get(...)[1:]`. -/
def tagref_target (defs : Node) (p : Nat × Nat) : Option String :=
  ((tagref_at defs p).bind (fun t => getAttr t "xlink:href")).map
    (fun s => strDrop s 1)

/-- Drop, from the grandchild list of the child at index `j`, the entries
whose position `(j, k)` (with `k` counted from `k0`) is in `rem`. -/
def dropIdx2 (rem : List (Nat × Nat)) (j : Nat) :
    List Node → Nat → List Node
  | [], _ => []
  | g :: gs, k =>
    if (j, k) ∈ rem then dropIdx2 rem j gs (k + 1)
    else g :: dropIdx2 rem j gs (k + 1)

/-- The child at index `j` with its removed grandchildren dropped. -/
def keepGrandchildren (rem : List (Nat × Nat)) (j : Nat) (t : Node) : Node :=
  .mk t.tag t.attrib (dropIdx2 rem j t.children 0)

/-- Apply an index-aware rewrite to each list entry, indices counted from
`j0`. -/
def mapWithIdx (f : Nat → Node → Node) : List Node → Nat → List Node
  | [], _ => []
  | c :: cs, j => f j c :: mapWithIdx f cs (j + 1)

/-- Remove, from a defs element, the grandchildren at the positions in
`rem` (`tagref.getparent().remove(tagref)` applied for each removed
position, positions taken in the original child order). -/
def dropGrandchildren (rem : List (Nat × Nat)) (defs : Node) : Node :=
  .mk defs.tag defs.attrib (mapWithIdx (keepGrandchildren rem) defs.children 0)

/-- The document with the tagrefs at positions `rem` removed from its first
`defs` section. -/
def dropTagrefs (root : Node) (rem : List (Nat × Nat)) : Node :=
  if root.tag == "svg:svg" then
    (mapFirst (fun n => n.tag == "svg:defs") (dropGrandchildren rem) root).1
  else root

/-- The fake placeholder path element built by the `placeholder` mode of
`update_tagrefs`. -/
def placeholderNode (href : String) : Node :=
  .mk "svg:path" [("id", href), ("d", "M 0,0 Z")] []

/-- Append the placeholder elements for `phs` to the document root. -/
def applyPlaceholders (root : Node) (phs : List String) : Node :=
  phs.foldl (fun r h => appendChild r (placeholderNode h)) root

/-- The `for tagref in inkscape_tagrefs:` loop of `update_tagrefs`: process
the tagref positions in order, looking each target id up in the document as
modified so far (`rem` the positions already removed, `phs` the placeholder
ids already appended).  A tagref without an `xlink:href` attribute makes the
source crash on `None[1:]`. -/
def tagrefs_loop (root defs : Node) (mode : String) :
    List (Nat × Nat) → List (Nat × Nat) → List String → Except String Node
  | [], rem, phs => .ok (applyPlaceholders (dropTagrefs root rem) phs)
  | p :: ps, rem, phs =>
    match (tagref_at defs p).bind (fun t => getAttr t "xlink:href") with
    | none => .error "TypeError: NoneType object is not subscriptable"
    | some s =>
      let href := strDrop s 1
      let current := applyPlaceholders (dropTagrefs root rem) phs
      if (getElementById current href).isNone then
        if mode = "purge" then tagrefs_loop root defs mode ps (rem ++ [p]) phs
        else if mode = "placeholder" then
          tagrefs_loop root defs mode ps rem (phs ++ [href])
        else tagrefs_loop root defs mode ps rem phs
      else tagrefs_loop root defs mode ps rem phs

/-- `PathOps.update_tagrefs(mode)`: check the tagrefs of the document's defs
section for deleted objects; in `purge` mode remove the stale ones, in
`placeholder` mode append fake substitute objects. -/
def update_tagrefs (root : Node) (mode : String) : Except String Node :=
  let r := get_defs root
  tagrefs_loop r.2 r.1 mode (tagref_positions r.1) [] []

/-- `PathOps.has_tagrefs`: whether the document's defs section holds
selection-set tagrefs.  The `get_defs` call can extend the document with an
empty defs section, so the (possibly extended) root is returned as well. -/
def has_tagrefs (root : Node) : Bool × Node :=
  let r := get_defs root
  ((get_tagrefs r.1).length != 0, r.2)

/-- The user-facing message for a document using Inkscape selection sets. -/
def selectionSetsMsg : String :=
  "This document uses Inkscape selection sets. " ++
  "Modifying the content with a PathOps extension " ++
  "may cause Inkscape to crash on reload or close. " ++
  "Please delete the selection sets, " ++
  "save the document under a new name and " ++
  "try again in a new Inkscape session."

/-- Modelled from the spec: `os.path.splitext(path)[0]` of the standard
library (not repository code) for ordinary file names — the path with its
final `.ext` suffix removed. -/
def splitextBase (p : String) : String :=
  let parts := splitSep '.' p
  if parts.length ≤ 1 then p else joinWith "." parts.dropLast

mutual

/-- Remove the first element (document order) whose id is `eid` from the
subtree below the argument (`top_node.getparent().remove(top_node)`); the
argument node itself is not inspected. -/
def removeFirstById (eid : String) : Node → Node
  | .mk t a cs => .mk t a (removeFirstByIdList eid cs).1

/-- `removeFirstById` over a forest: try each root in turn (the node first,
then its subtree), returning whether a removal happened. -/
def removeFirstByIdList (eid : String) : List Node → List Node × Bool
  | [] => ([], false)
  | c :: cs =>
    if getAttr c "id" == some eid then (cs, true)
    else
      match c with
      | .mk t a gs =>
        let inner := removeFirstByIdList eid gs
        if inner.2 then (Node.mk t a inner.1 :: cs, true)
        else
          let rest := removeFirstByIdList eid cs
          (Node.mk t a gs :: rest.1, rest.2)

end

/-- The `for chunk in chunks(...)` loop of `loop_pathops`, with its running
`count`: per chunk, the dry-run trace line (when in dry-run mode) followed by
the events of `run_pathops`. -/
def chunk_loop (world : World) (dry_run : Bool)
    (tempfile top_path ink_verb : String) :
    List (List String) → Nat → List Event × Nat
  | [], count => ([], count)
  | c :: cs, count =>
    let count := count + 1
    let evs :=
      (if dry_run then
        [Event.debugMsg ("\n# Processing " ++ toString count ++
          ". chunk with " ++ toString c.length ++ " objects ...")]
      else []) ++ run_pathops world tempfile top_path c ink_verb dry_run
    let rest := chunk_loop world dry_run tempfile top_path ink_verb cs count
    (evs ++ rest.1, rest.2)

/-- `PathOps.loop_pathops`: loop through the chunked id list and run the
external command(s); afterwards (outside dry-run mode) reload the document
from the temporary file, optionally delete the top element, purge stale
tagrefs and remove the temporary file. -/
def loop_pathops (world : World) (opts : Options) (svg_file : String)
    (doc : Node) (top_path : String) (other_paths : List String) :
    Except String Node × List Event :=
  let max_ops := if opts.max_ops = 0 then 500 else opts.max_ops
  let ink_verb := if opts.ink_verb = "" then "SelectionDiff" else opts.ink_verb
  let dry_run := opts.dry_run
  let tempfile := splitextBase svg_file ++ "-pathops.svg"
  let prepEvs : List Event :=
    if dry_run then
      [.debugMsg ("# Top object id: " ++ top_path),
       .debugMsg ("# Other objects total: " ++ toString other_paths.length)]
    else [.writeFile tempfile]
  let loop := chunk_loop world dry_run tempfile top_path ink_verb
    (chunks other_paths max_ops) 0
  if dry_run then
    (.ok doc,
     prepEvs ++ loop.1 ++
       [.debugMsg ("\n# " ++ toString loop.2 ++ " chunks processed, with " ++
         toString other_paths.length ++ " total objects.")])
  else
    let doc1 := world.parse tempfile
    let afterTop : Except String Node :=
      if opts.keep_top then .ok doc1
      else
        match getElementById doc1 top_path with
        | none => .ok doc1
        | some n =>
          if n = doc1 then
            .error "AttributeError: NoneType object has no attribute remove"
          else .ok (removeFirstById top_path doc1)
    match afterTop with
    | .error e => (.error e, prepEvs ++ loop.1 ++ [.parseFile tempfile])
    | .ok doc2 =>
      match update_tagrefs doc2 "purge" with
      | .error e => (.error e, prepEvs ++ loop.1 ++ [.parseFile tempfile])
      | .ok doc3 =>
        (.ok doc3, prepEvs ++ loop.1 ++ [.parseFile tempfile, .removeFile tempfile])

/-- `PathOps.effect`: main entry point.  Reject documents with selection-set
tagrefs; otherwise flatten and sort the selection and, when it yielded a top
and others, run the chunk loop. -/
def effect (world : World) (opts : Options) (svg_file : String) (doc : Node)
    (selected : List Node) : Except String Node × List Event :=
  let tr := has_tagrefs doc
  if tr.1 then (.ok tr.2, [.errorMsg selectionSetsMsg])
  else
    match get_sorted_ids opts tr.2 selected with
    | (.error e, evs) => (.error e, evs)
    | (.ok (some top_path, some other_paths), evs) =>
      let r := loop_pathops world opts svg_file tr.2 top_path other_paths
      (r.1, evs ++ r.2)
    | (.ok _, evs) => (.ok tr.2, evs)

mutual

/-- Spec-side characterization of the recursive (unlimited-level) selection
flattening: a group is expanded to the flattening of its children, and any
node recognized by `does_pathops` additionally contributes its own id,
after its expanded children. -/
def specFlatIds : Node → List (Option String)
  | .mk t a cs =>
    (if is_group (.mk t a cs) then specFlatIdsList cs else []) ++
      (if does_pathops (.mk t a cs) then [getAttr (.mk t a cs) "id"] else [])

/-- `specFlatIds` over a forest, in order. -/
def specFlatIdsList : List Node → List (Option String)
  | [] => []
  | c :: cs => specFlatIds c ++ specFlatIdsList cs

end

/-- Spec-side characterization of the one-group-level selection flattening
(`recursive_sel` disabled): a selected group contributes the ids of its
eligible direct children, and any selected node recognized by `does_pathops`
additionally contributes its own id. -/
def specOneLevelIds (n : Node) : List (Option String) :=
  (if is_group n then
    (n.children.filter (fun c => does_pathops c)).map (fun c => getAttr c "id")
  else []) ++
    (if does_pathops n then [getAttr n "id"] else [])

/-- The debug trace `loop_pathops` emits in dry-run mode: the top object id,
the total count of others, then per chunk (numbered from 1) a processing
line with the chunk's object count and the command list that would have
been run, and finally the number of chunks processed. -/
def dry_run_trace (svg_file top_path : String) (other_paths : List String)
    (max_ops : Nat) (ink_verb : String) : List Event :=
  let tempfile := splitextBase svg_file ++ "-pathops.svg"
  let cs := chunks other_paths max_ops
  [.debugMsg ("# Top object id: " ++ top_path),
   .debugMsg ("# Other objects total: " ++ toString other_paths.length)] ++
  (cs.enum.flatMap (fun ic =>
    [.debugMsg ("\n# Processing " ++ toString (ic.1 + 1) ++ ". chunk with " ++
      toString ic.2.length ++ " objects ..."),
     .debugList (pathops_cmdlist tempfile top_path ic.2 ink_verb)])) ++
  [.debugMsg ("\n# " ++ toString cs.length ++ " chunks processed, with " ++
    toString other_paths.length ++ " total objects.")]

/-- The purge decisions taken against a fixed document: the tagref positions
whose target id has no element in `root`. -/
def purge_decisions (root defs : Node) : List (Nat × Nat) :=
  (tagref_positions defs).filter (fun p =>
    match tagref_target defs p with
    | some h => (getElementById root h).isNone
    | none => false)

-- ----- concrete example documents used by witnesses and counterexamples

/-- Example: a path with id `p1`. -/
def exP1 : Node := .mk "svg:path" [("id", "p1")] []

/-- Example: a path with id `p2`. -/
def exP2 : Node := .mk "svg:path" [("id", "p2")] []

/-- Example: a group carrying Inkscape's custom-shape marker
(`sodipodi:type`), which makes `does_pathops` accept the group itself. -/
def exShapeGroup : Node :=
  .mk "svg:g" [("sodipodi:type", "star"), ("id", "g1")] [exP1, exP2]

/-- Example document holding `exShapeGroup`. -/
def exShapeRoot : Node :=
  .mk "svg:svg" [("id", "root")] [.mk "svg:defs" [] [], exShapeGroup]

/-- Example: two paths sharing the id `a` inside a plain group (XML does not
enforce id uniqueness). -/
def exDupGroup : Node :=
  .mk "svg:g" [("id", "gg")]
    [.mk "svg:path" [("id", "a")] [], .mk "svg:path" [("id", "a")] []]

/-- Example document holding `exDupGroup`. -/
def exDupRoot : Node := .mk "svg:svg" [] [exDupGroup]

/-- Example: a filled path whose style the `SelectionCutPath` property check
rewrites. -/
def exCutPath : Node := .mk "svg:path" [("id", "p1"), ("style", "fill:#ff0000")] []

/-- Example document holding `exCutPath` and an empty defs section. -/
def exCutRoot : Node := .mk "svg:svg" [] [.mk "svg:defs" [] [], exCutPath]

/-- Example options selecting the cut-path verb outside dry-run mode. -/
def exCutOpts : Options := { default_options with ink_verb := "SelectionCutPath" }

/-- Example: an inert world (all commands succeed silently; parsing yields
an empty document). -/
def exWorld : World := ⟨fun _ => ⟨0, "", none⟩, fun _ => .mk "svg:svg" [] []⟩

/-- Example document with two directly selected paths (unique ids). -/
def exTwoRoot : Node := .mk "svg:svg" [] [.mk "svg:defs" [] [], exP1, exP2]

/-- Example options with dry-run enabled and a chunk size of 2. -/
def exDryOpts : Options := { default_options with dry_run := true, max_ops := 2 }

/-- Example: a tagref pointing at the id `idB`. -/
def exTagrefA : Node := .mk "inkscape:tagref" [("xlink:href", "#idB")] []

/-- Example: a tagref that itself carries the id `idB` while pointing at a
missing id. -/
def exTagrefB : Node :=
  .mk "inkscape:tagref" [("id", "idB"), ("xlink:href", "#missing")] []

/-- Example defs section holding one selection-set tag with the two tagrefs. -/
def exTagDefs : Node := .mk "svg:defs" [] [.mk "inkscape:tag" [] [exTagrefA, exTagrefB]]

/-- Example document whose defs section holds selection-set tagrefs. -/
def exTagRoot : Node := .mk "svg:svg" [] [exTagDefs]

/-- Example: a path element whose id a tagref references. -/
def exKeepPath : Node := .mk "svg:path" [("id", "keep")] []

/-- Example: a tagref whose target exists. -/
def exRefGood : Node := .mk "inkscape:tagref" [("xlink:href", "#keep")] []

/-- Example: a tagref whose target is missing. -/
def exRefBad : Node := .mk "inkscape:tagref" [("xlink:href", "#gone")] []

/-- Example defs section for the purge witness. -/
def exPurgeDefs : Node :=
  .mk "svg:defs" [] [.mk "inkscape:tag" [] [exRefGood, exRefBad]]

/-- Example document for the purge witness. -/
def exPurgeRoot : Node := .mk "svg:svg" [] [exPurgeDefs, exKeepPath]

-- ----- helper lemmas

lemma foldl_append_flatMap {α β : Type} (f : α → List β) :
    ∀ (l : List α) (acc : List β),
      l.foldl (fun a x => a ++ f x) acc = acc ++ l.flatMap f := by
  intro l
  induction l with
  | nil => intro acc; simp
  | cons x xs ih =>
    intro acc
    simp only [List.foldl_cons, List.flatMap_cons, ih, List.append_assoc]

lemma chunks_nil {α : Type} (m : Nat) : chunks ([] : List α) m = [] := by
  unfold chunks rangeStep
  have h : (List.length ([] : List α) + m - 1) / m = 0 := by
    rcases Nat.eq_zero_or_pos m with rfl | hm
    · simp
    · simp only [List.length_nil, Nat.zero_add]
      exact Nat.div_eq_of_lt (by omega)
  rw [h]
  simp

lemma chunks_cons {α : Type} (l : List α) (m : Nat) (hm : 0 < m)
    (hl : l ≠ []) : chunks l m = l.take m :: chunks (l.drop m) m := by
  have hn : 1 ≤ l.length := List.length_pos.mpr hl
  have hk : (l.length + m - 1) / m = ((l.drop m).length + m - 1) / m + 1 := by
    rw [List.length_drop]
    have h1 : l.length + m - 1 = (l.length - 1) + m := by omega
    rw [h1, Nat.add_div_right _ hm]
    congr 1
    rcases le_or_lt l.length m with hle | hgt
    · have h0 : l.length - m = 0 := by omega
      rw [h0]
      have h2 : 0 + m - 1 = m - 1 := by omega
      rw [h2, Nat.div_eq_of_lt (by omega), Nat.div_eq_of_lt (by omega)]
    · have h2 : l.length - m + m - 1 = l.length - 1 := by omega
      rw [h2]
  unfold chunks rangeStep
  rw [hk, List.range_succ_eq_map]
  simp only [List.map_cons, List.map_map, Nat.zero_mul, List.drop_zero]
  refine congrArg (List.cons _) ?_
  apply List.map_congr_left
  intro i _
  simp only [Function.comp_apply, List.drop_drop]
  congr 2
  rw [Nat.succ_mul, Nat.mul_comm i m]
  omega

lemma chunks_join {α : Type} (m : Nat) (hm : 0 < m) :
    ∀ (l : List α), (chunks l m).flatten = l := by
  have main : ∀ (n : Nat) (l : List α), l.length ≤ n → (chunks l m).flatten = l := by
    intro n
    induction n with
    | zero =>
      intro l hl
      have : l = [] := List.eq_nil_of_length_eq_zero (by omega)
      subst this
      simp [chunks_nil]
    | succ k ih =>
      intro l hl
      rcases eq_or_ne l [] with rfl | hne
      · simp [chunks_nil]
      · rw [chunks_cons l m hm hne]
        have hdrop : (l.drop m).length ≤ k := by
          rw [List.length_drop]
          have := List.length_pos.mpr hne
          omega
        simp only [List.flatten_cons, ih (l.drop m) hdrop, List.take_append_drop]
  intro l
  exact main l.length l le_rfl

lemma chunks_length {α : Type} (l : List α) (m : Nat) :
    (chunks l m).length = (l.length + m - 1) / m := by
  simp [chunks, rangeStep]

lemma chunks_le {α : Type} (l : List α) (m : Nat) :
    ∀ c ∈ chunks l m, c.length ≤ m := by
  intro c hc
  simp only [chunks, rangeStep, List.map_map, List.mem_map] at hc
  obtain ⟨i, _, rfl⟩ := hc
  simp only [Function.comp_apply, List.length_take]
  omega

-- ----- claim theorems C3, C8, C9, C10

/-- Claim C3: for every list of other ids and every configured chunk size
`m > 0`, `chunks` yields exactly `⌈N / m⌉ = (N + m - 1) / m` chunks, every
chunk has length at most `m`, and the concatenation of the chunks in order
reconstructs the original list exactly. -/
theorem pathops_c3 (l : List String) (m : Nat) (hm : 0 < m) :
    (chunks l m).length = (l.length + m - 1) / m
    ∧ (∀ c ∈ chunks l m, c.length ≤ m)
    ∧ (chunks l m).flatten = l :=
  ⟨chunks_length l m, chunks_le l m, chunks_join m hm l⟩

/-- Witness for C3 at a concrete input: 5 ids in chunks of 2 give
`⌈5 / 2⌉ = 3` chunks of sizes at most 2 that re-concatenate to the list. -/
theorem pathops_c3_witness :
    0 < 2
    ∧ ((chunks ["a", "b", "c", "d", "e"] 2).length = (5 + 2 - 1) / 2
      ∧ (∀ c ∈ chunks ["a", "b", "c", "d", "e"] 2, c.length ≤ 2)
      ∧ (chunks ["a", "b", "c", "d", "e"] 2).flatten = ["a", "b", "c", "d", "e"]) :=
  ⟨by decide, pathops_c3 ["a", "b", "c", "d", "e"] 2 (by decide)⟩

/-- Claim C8: the command list built by `run_pathops` for a chunk is the
host binary name followed, for each id of the chunk in order, by a selection
of the top id, the duplicate verb, a selection of the paired id, the
configured operation verb and the deselect verb, terminated by the save and
quit verbs and a `-f` argument naming the working file. -/
theorem pathops_c8 (svgfile top_path : String) (id_list : List String)
    (ink_verb : String) :
    pathops_cmdlist svgfile top_path id_list ink_verb =
      "inkscape" ::
        (id_list.flatMap (fun node_id =>
          ["--select=" ++ top_path, "--verb=EditDuplicate",
           "--select=" ++ node_id, "--verb=" ++ ink_verb,
           "--verb=EditDeselect"]))
        ++ ["--verb=FileSave", "--verb=FileQuit", "-f", svgfile] := by
  simp only [pathops_cmdlist]
  rw [foldl_append_flatMap]
  simp

/-- Claim C9: when the spawned process exits with a nonzero return code and
a captured error stream, `run` surfaces that stream as a user-facing message
after the single spawn (no retry) and returns nothing; on a zero return code
it returns the captured standard output with no message. -/
theorem pathops_c9 (world : World) (cmd : List String) :
    ((world.exec cmd).returncode ≠ 0 → ∀ e, (world.exec cmd).err = some e →
      run world cmd false = (none, [.spawn cmd, .errorMsg e]))
    ∧ ((world.exec cmd).returncode = 0 →
      run world cmd false = (some (world.exec cmd).out, [.spawn cmd])) := by
  constructor
  · intro hrc e herr
    simp [run, hrc, herr]
  · intro hrc
    simp [run, hrc]

/-- Witness for C9 at concrete worlds: a failing command surfaces its error
stream, and a succeeding one returns its output. -/
theorem pathops_c9_witness :
    run ⟨fun _ => ⟨1, "", some "boom"⟩, fun _ => Node.mk "svg:svg" [] []⟩
        ["inkscape"] false = (none, [.spawn ["inkscape"], .errorMsg "boom"])
    ∧ run ⟨fun _ => ⟨0, "out", none⟩, fun _ => Node.mk "svg:svg" [] []⟩
        ["inkscape"] false = (some "out", [.spawn ["inkscape"]]) :=
  ⟨(pathops_c9 ⟨fun _ => ⟨1, "", some "boom"⟩, fun _ => Node.mk "svg:svg" [] []⟩
      ["inkscape"]).1 (by decide) "boom" rfl,
   (pathops_c9 ⟨fun _ => ⟨0, "out", none⟩, fun _ => Node.mk "svg:svg" [] []⟩
      ["inkscape"]).2 rfl⟩

/-- Claim C10: the two falsy-option fallbacks of `loop_pathops` act
independently.  Whenever the `max_ops` option is 0 (falsy) — whatever the
configured verb — `loop_pathops` behaves exactly as with the default chunk
size 500, so the effective chunk size is positive and chunking splits the
others losslessly: the chunk loop neither raises nor fails to terminate.
Likewise, whenever the verb option is empty (falsy) — whatever the
configured `max_ops` — `loop_pathops` behaves exactly as with the default
verb `SelectionDiff`. -/
theorem pathops_c10 (world : World) (opts : Options) (svg_file : String)
    (doc : Node) (top_path : String) (other_paths : List String) :
    (opts.max_ops = 0 →
      loop_pathops world opts svg_file doc top_path other_paths =
        loop_pathops world { opts with max_ops := 500 }
          svg_file doc top_path other_paths
      ∧ 0 < (if opts.max_ops = 0 then 500 else opts.max_ops)
      ∧ (chunks other_paths
          (if opts.max_ops = 0 then 500 else opts.max_ops)).flatten =
          other_paths)
    ∧ (opts.ink_verb = "" →
      loop_pathops world opts svg_file doc top_path other_paths =
        loop_pathops world { opts with ink_verb := "SelectionDiff" }
          svg_file doc top_path other_paths) := by
  constructor
  · intro h0
    refine ⟨?_, ?_, ?_⟩
    · obtain ⟨iv, mo, rs, kt, ds, dsw, dr⟩ := opts
      simp only at h0
      subst h0
      rfl
    · simp [h0]
    · simp only [h0, if_pos rfl]
      exact chunks_join 500 (by omega) other_paths
  · intro hv
    obtain ⟨iv, mo, rs, kt, ds, dsw, dr⟩ := opts
    simp only at hv
    subst hv
    rfl

/-- Witness for C10, exercising both fallbacks independently: a falsy
`max_ops` with a configured nonempty verb, and a falsy verb with a positive
`max_ops`. -/
theorem pathops_c10_witness :
    (loop_pathops ⟨fun _ => ⟨0, "", none⟩, fun _ => Node.mk "svg:svg" [] []⟩
        { ink_verb := "SelectionUnion", max_ops := 0, recursive_sel := true,
          keep_top := true, default_stroke := "#000000",
          default_stroke_width := "1px", dry_run := true }
        "doc.svg" (Node.mk "svg:svg" [] []) "top" ["a"] =
      loop_pathops ⟨fun _ => ⟨0, "", none⟩, fun _ => Node.mk "svg:svg" [] []⟩
        { ink_verb := "SelectionUnion", max_ops := 500, recursive_sel := true,
          keep_top := true, default_stroke := "#000000",
          default_stroke_width := "1px", dry_run := true }
        "doc.svg" (Node.mk "svg:svg" [] []) "top" ["a"]
      ∧ 0 < (if (0 : Nat) = 0 then 500 else 0)
      ∧ (chunks ["a"] (if (0 : Nat) = 0 then 500 else 0)).flatten = ["a"])
    ∧ (loop_pathops ⟨fun _ => ⟨0, "", none⟩, fun _ => Node.mk "svg:svg" [] []⟩
        { ink_verb := "", max_ops := 7, recursive_sel := true,
          keep_top := true, default_stroke := "#000000",
          default_stroke_width := "1px", dry_run := true }
        "doc.svg" (Node.mk "svg:svg" [] []) "top" ["a"] =
      loop_pathops ⟨fun _ => ⟨0, "", none⟩, fun _ => Node.mk "svg:svg" [] []⟩
        { ink_verb := "SelectionDiff", max_ops := 7, recursive_sel := true,
          keep_top := true, default_stroke := "#000000",
          default_stroke_width := "1px", dry_run := true }
        "doc.svg" (Node.mk "svg:svg" [] []) "top" ["a"]) :=
  ⟨(pathops_c10 ⟨fun _ => ⟨0, "", none⟩, fun _ => Node.mk "svg:svg" [] []⟩
      { ink_verb := "SelectionUnion", max_ops := 0, recursive_sel := true,
        keep_top := true, default_stroke := "#000000",
        default_stroke_width := "1px", dry_run := true }
      "doc.svg" (Node.mk "svg:svg" [] []) "top" ["a"]).1 rfl,
   (pathops_c10 ⟨fun _ => ⟨0, "", none⟩, fun _ => Node.mk "svg:svg" [] []⟩
      { ink_verb := "", max_ops := 7, recursive_sel := true,
        keep_top := true, default_stroke := "#000000",
        default_stroke_width := "1px", dry_run := true }
      "doc.svg" (Node.mk "svg:svg" [] []) "top" ["a"]).2 rfl⟩

lemma update_attrib_events (opts : Options) (node : Node) (prop val : String) :
    ∀ e ∈ update_attrib opts node prop val, e.isSetAttrib = true := by
  intro e he
  unfold update_attrib at he
  split at he
  · exact absurd he (List.not_mem_nil e)
  · rw [List.mem_singleton] at he
    subst he
    rfl

lemma check_props_events (opts : Options) (node : Node) :
    ∀ e ∈ check_props opts node, e.isSetAttrib = true := by
  intro e he
  unfold check_props at he
  split at he
  · simp only [List.mem_append] at he
    rcases he with he | he
    · split at he
      · exact update_attrib_events _ _ _ _ e he
      · exact absurd he (List.not_mem_nil e)
    · exact update_attrib_events _ _ _ _ e he
  · exact absurd he (List.not_mem_nil e)

mutual

theorem recurse_selection_events (opts : Options) :
    ∀ (node : Node) (id_list : List (Option String)) (level current : Nat),
      ∀ e ∈ (recurse_selection opts node id_list level current).2,
        e.isSetAttrib = true
  | .mk t a cs, id_list, level, current => by
    intro e he
    simp only [recurse_selection] at he
    split at he
    · simp only [List.mem_append] at he
      rcases he with he | he
      · split at he
        · split at he
          · exact recurse_children_events opts cs id_list level
              (current + 1) e he
          · exact absurd he (List.not_mem_nil e)
        · exact absurd he (List.not_mem_nil e)
      · exact check_props_events opts _ e he
    · split at he
      · split at he
        · exact recurse_children_events opts cs id_list level
            (current + 1) e he
        · exact absurd he (List.not_mem_nil e)
      · exact absurd he (List.not_mem_nil e)

theorem recurse_children_events (opts : Options) :
    ∀ (nodes : List Node) (id_list : List (Option String)) (level current : Nat),
      ∀ e ∈ (recurse_children opts nodes id_list level current).2,
        e.isSetAttrib = true
  | [], _, _, _ => by
    intro e he
    exact absurd he (List.not_mem_nil e)
  | c :: cs, id_list, level, current => by
    intro e he
    simp only [recurse_children] at he
    simp only [List.mem_append] at he
    rcases he with he | he
    · exact recurse_selection_events opts c id_list level current e he
    · exact recurse_children_events opts cs
        (recurse_selection opts c id_list level current).1 level current e he

end

lemma selection_flatten_events (opts : Options) (selected : List Node) :
    ∀ e ∈ (selection_flatten opts selected).2, e.isSetAttrib = true := by
  have main : ∀ (level : Nat) (sel : List Node)
      (acc : List (Option String) × List Event),
      (∀ e ∈ acc.2, e.isSetAttrib = true) →
      ∀ e ∈ (sel.foldl (fun a n =>
          let r := recurse_selection opts n a.1 level 0
          (r.1, a.2 ++ r.2)) acc).2, e.isSetAttrib = true := by
    intro level sel
    induction sel with
    | nil => exact fun acc hacc e he => hacc e he
    | cons n ns ih =>
      intro acc hacc e he
      refine ih _ ?_ e he
      intro x hx
      rcases List.mem_append.mp hx with hx | hx
      · exact hacc x hx
      · exact recurse_selection_events opts n acc.1 level 0 x hx
  intro e he
  exact main _ selected ([], [])
    (fun x hx => absurd hx (List.not_mem_nil x)) e he

-- ----- claim theorems C5, C6

/-- Claim C6 (confirmed): for every document whose defs section contains at
least one selection-set tagref, `effect` shows the selection-sets message
and returns immediately: the document is returned unchanged and no other
event — no flattening side effect, no subprocess, no file access — takes
place. -/
theorem pathops_c6 (world : World) (opts : Options) (svg_file : String)
    (doc : Node) (selected : List Node) (d : Node)
    (hd : find_defs doc = some d) (htr : get_tagrefs d ≠ []) :
    effect world opts svg_file doc selected =
      (.ok doc, [.errorMsg selectionSetsMsg]) := by
  have hgd : get_defs doc = (d, doc) := by rw [get_defs, hd]
  have hlen : ((get_tagrefs d).length != 0) = true := by
    have hne : (get_tagrefs d).length ≠ 0 := by
      intro h0
      exact htr (List.eq_nil_of_length_eq_zero h0)
    simpa using hne
  rw [effect, has_tagrefs, hgd]
  simp [hlen]

/-- Witness for C6 at a concrete document carrying tagrefs. -/
theorem pathops_c6_witness :
    find_defs exTagRoot = some exTagDefs
    ∧ get_tagrefs exTagDefs ≠ []
    ∧ effect exWorld default_options "doc.svg" exTagRoot [exCutPath] =
        (.ok exTagRoot, [.errorMsg selectionSetsMsg]) :=
  ⟨by decide, by decide,
   pathops_c6 exWorld default_options "doc.svg" exTagRoot [exCutPath]
     exTagDefs (by decide) (by decide)⟩

/-- Claim C5, counterexample to the claim as stated: with the
`SelectionCutPath` verb configured (outside dry-run mode), a selection of a
single eligible element is rejected with the message, yet the document HAS
been modified: the property check performed during flattening — before the
length check — rewrote the node's style attribute (a `setAttrib` event
appears in the run's trace). -/
theorem pathops_c5_counterexample :
    (selection_ids exCutOpts [exCutPath]).length < 2
    ∧ (get_selected_ids exCutOpts [exCutPath]).1 = none
    ∧ (effect exWorld exCutOpts "doc.svg" exCutRoot [exCutPath]).2.any
        (fun e => e.isSetAttrib) = true := by
  refine ⟨by decide, by decide, by decide⟩

/-- Claim C5 as amended: for every selection whose flattening yields fewer
than two entries, `get_selected_ids` shows the "requires at least 2
elements" message (the last event of its trace) and returns `none`, and
`effect` performs no further processing: it runs no subprocess, touches no
file, and leaves the document value unchanged (up to the empty defs section
the tagref check inserts into a document lacking one); the only events of
the whole run are user-facing messages and the style/stroke attribute
writes made by the cut-path property check during flattening itself. -/
theorem pathops_c5 (world : World) (opts : Options) (svg_file : String)
    (doc : Node) (selected : List Node)
    (h : (selection_ids opts selected).length < 2) :
    (get_selected_ids opts selected).1 = none
    ∧ (get_selected_ids opts selected).2.getLast? =
        some (.errorMsg requiresTwoMsg)
    ∧ (effect world opts svg_file doc selected).1 = .ok (get_defs doc).2
    ∧ (∀ e ∈ (effect world opts svg_file doc selected).2,
        e.isErrorMsg = true ∨ e.isSetAttrib = true) := by
  have hsel : get_selected_ids opts selected =
      (none, (selection_flatten opts selected).2 ++ [.errorMsg requiresTwoMsg]) := by
    rw [get_selected_ids]
    split
    · rfl
    · next h' => exact absurd h h'
  by_cases htag : (has_tagrefs doc).1 = true
  · have heff : effect world opts svg_file doc selected =
        (.ok (get_defs doc).2, [.errorMsg selectionSetsMsg]) := by
      simp only [effect, htag, if_true]
      rfl
    refine ⟨by rw [hsel], by rw [hsel]; simp, by rw [heff], ?_⟩
    rw [heff]
    intro e he
    rw [List.mem_singleton] at he
    subst he
    exact Or.inl rfl
  · have hgs : get_sorted_ids opts (has_tagrefs doc).2 selected =
        (.ok (none, none),
         (selection_flatten opts selected).2 ++ [.errorMsg requiresTwoMsg]) := by
      rw [get_sorted_ids, hsel]
    have heff : effect world opts svg_file doc selected =
        (.ok (has_tagrefs doc).2,
         (selection_flatten opts selected).2 ++ [.errorMsg requiresTwoMsg]) := by
      simp only [effect, htag, if_false, Bool.false_eq_true, hgs]
    refine ⟨by rw [hsel], by rw [hsel]; simp, by rw [heff]; rfl, ?_⟩
    rw [heff]
    intro e he
    rcases List.mem_append.mp he with he | he
    · exact Or.inr (selection_flatten_events opts selected e he)
    · rw [List.mem_singleton] at he
      subst he
      exact Or.inl rfl

/-- Witness for C5 (amended) at a concrete empty selection. -/
theorem pathops_c5_witness :
    (selection_ids default_options []).length < 2
    ∧ ((get_selected_ids default_options []).1 = none
      ∧ (get_selected_ids default_options []).2.getLast? =
          some (.errorMsg requiresTwoMsg)
      ∧ (effect exWorld default_options "doc.svg"
          (Node.mk "svg:svg" [] []) []).1 =
            .ok (get_defs (Node.mk "svg:svg" [] [])).2
      ∧ (∀ e ∈ (effect exWorld default_options "doc.svg"
            (Node.mk "svg:svg" [] []) []).2,
          e.isErrorMsg = true ∨ e.isSetAttrib = true)) :=
  ⟨by decide,
   pathops_c5 exWorld default_options "doc.svg" (Node.mk "svg:svg" [] []) []
     (by decide)⟩

lemma enumFrom_cons_eq {α : Type} (n : Nat) (a : α) (l : List α) :
    List.enumFrom n (a :: l) = (n, a) :: List.enumFrom (n + 1) l := rfl

lemma enum_eq_enumFrom_zero {α : Type} (l : List α) :
    l.enum = l.enumFrom 0 := rfl

lemma chunk_loop_dry (world : World) (tempfile top_path ink_verb : String) :
    ∀ (cs : List (List String)) (count : Nat),
      chunk_loop world true tempfile top_path ink_verb cs count =
        ((cs.enumFrom count).flatMap (fun ic =>
          [.debugMsg ("\n# Processing " ++ toString (ic.1 + 1) ++
            ". chunk with " ++ toString ic.2.length ++ " objects ..."),
           .debugList (pathops_cmdlist tempfile top_path ic.2 ink_verb)]),
         count + cs.length) := by
  intro cs
  induction cs with
  | nil => intro count; simp [chunk_loop, List.enumFrom]
  | cons c cs ih =>
    intro count
    rw [chunk_loop, enumFrom_cons_eq, List.flatMap_cons, ih (count + 1)]
    simp only [run_pathops, if_true, List.length_cons]
    refine Prod.ext ?_ (by omega)
    simp

lemma dry_run_trace_debug (svg_file top_path : String)
    (other_paths : List String) (max_ops : Nat) (ink_verb : String) :
    ∀ e ∈ dry_run_trace svg_file top_path other_paths max_ops ink_verb,
      e.isDebug = true := by
  intro e he
  simp only [dry_run_trace] at he
  rcases List.mem_append.mp he with h1 | h1
  · rcases List.mem_append.mp h1 with h2 | h2
    · rcases List.mem_cons.mp h2 with rfl | h3
      · rfl
      · rw [List.mem_singleton] at h3
        subst h3
        rfl
    · rcases List.mem_flatMap.mp h2 with ⟨ic, _, hm⟩
      rcases List.mem_cons.mp hm with rfl | hm'
      · rfl
      · rw [List.mem_singleton] at hm'
        subst hm'
        rfl
  · rw [List.mem_singleton] at h1
    subst h1
    rfl

/-- Claim C4: with the dry-run option set, `update_attrib` is a no-op, and
`loop_pathops` returns the document unchanged while emitting exactly the
dry-run debug trace — the top object id, the total object count, one
processing line (with object count) and one command listing per chunk, and
the final chunk count — so no subprocess is started, no file is written,
parsed or removed, and no attribute is modified. -/
theorem pathops_c4 (world : World) (opts : Options) (svg_file : String)
    (doc : Node) (top_path : String) (other_paths : List String)
    (node : Node) (prop val : String)
    (hdry : opts.dry_run = true) :
    update_attrib opts node prop val = []
    ∧ loop_pathops world opts svg_file doc top_path other_paths =
        (.ok doc,
          dry_run_trace svg_file top_path other_paths
            (if opts.max_ops = 0 then 500 else opts.max_ops)
            (if opts.ink_verb = "" then "SelectionDiff" else opts.ink_verb))
    ∧ (∀ e ∈ (loop_pathops world opts svg_file doc top_path other_paths).2,
        e.isDebug = true) := by
  have hloop : loop_pathops world opts svg_file doc top_path other_paths =
      (.ok doc,
        dry_run_trace svg_file top_path other_paths
          (if opts.max_ops = 0 then 500 else opts.max_ops)
          (if opts.ink_verb = "" then "SelectionDiff" else opts.ink_verb)) := by
    simp only [loop_pathops, hdry, if_true]
    rw [chunk_loop_dry]
    simp only [dry_run_trace, enum_eq_enumFrom_zero, Nat.zero_add]
  refine ⟨by simp [update_attrib, hdry], hloop, ?_⟩
  rw [hloop]
  exact dry_run_trace_debug _ _ _ _ _

/-- Witness for C4 at a concrete dry-run invocation with two chunks. -/
theorem pathops_c4_witness :
    exDryOpts.dry_run = true
    ∧ (update_attrib exDryOpts exCutPath "style" "x" = []
      ∧ loop_pathops exWorld exDryOpts "doc.svg" exCutRoot "top"
          ["a", "b", "c"] =
        (.ok exCutRoot,
          dry_run_trace "doc.svg" "top" ["a", "b", "c"]
            (if exDryOpts.max_ops = 0 then 500 else exDryOpts.max_ops)
            (if exDryOpts.ink_verb = "" then "SelectionDiff"
             else exDryOpts.ink_verb))
      ∧ (∀ e ∈ (loop_pathops exWorld exDryOpts "doc.svg" exCutRoot "top"
            ["a", "b", "c"]).2, e.isDebug = true)) :=
  ⟨by decide,
   pathops_c4 exWorld exDryOpts "doc.svg" exCutRoot "top" ["a", "b", "c"]
     exCutPath "style" "x" rfl⟩

lemma z_iter_sublist (elems : List Node) :
    ∀ alist, (z_iter elems alist).Sublist
      (elems.filterMap (fun m => getAttr m "id")) := by
  induction elems with
  | nil => intro alist; simp [z_iter]
  | cons e es ih =>
    intro alist
    rw [z_iter]
    cases hid : getAttr e "id" with
    | none =>
      simp only [List.filterMap_cons, hid]
      exact ih alist
    | some i =>
      simp only [List.filterMap_cons, hid]
      split
      · exact (ih _).cons₂ i
      · exact (ih alist).cons i

lemma eraseFirst_perm (t : Option String) :
    ∀ {l₁ l₂ : List (Option String)}, l₁.Perm l₂ →
      (eraseFirst l₁ t).Perm (eraseFirst l₂ t) := by
  intro l₁ l₂ hp
  induction hp with
  | nil => exact List.Perm.refl _
  | cons a _ ih =>
    by_cases ha : a = t
    · simpa [eraseFirst, ha] using (by assumption)
    · simpa [eraseFirst, ha] using ih.cons a
  | swap x y l =>
    by_cases hy : y = t <;> by_cases hx : x = t <;>
      simp [eraseFirst, hy, hx]
    exact List.Perm.swap x y _
  | trans _ _ ih1 ih2 => exact ih1.trans ih2

lemma z_iter_perm (elems : List Node) :
    ∀ {alist alist' : List (Option String)}, alist.Perm alist' →
      z_iter elems alist = z_iter elems alist' := by
  induction elems with
  | nil => intro _ _ _; rfl
  | cons e es ih =>
    intro alist alist' hp
    rw [z_iter, z_iter]
    cases hid : getAttr e "id" with
    | none => simp only [hid]; exact ih hp
    | some i =>
      simp only [hid]
      by_cases hmem : some i ∈ alist
      · rw [if_pos hmem, if_pos (hp.mem_iff.mp hmem)]
        exact congrArg (fun l => i :: l) (ih (eraseFirst_perm (some i) hp))
      · rw [if_neg hmem, if_neg (fun h => hmem (hp.mem_iff.mpr h))]
        exact ih hp

/-- Claim C2, counterexample to the claim as stated: in a document where two
elements share the id `a` (XML does not enforce uniqueness), a selection of
the group holding both passes the eligibility check, and `get_sorted_ids`
returns the top id `a` — which also occurs in the returned list of other
ids. -/
theorem pathops_c2_counterexample :
    (get_sorted_ids default_options exDupRoot [exDupGroup]).1 =
      .ok (some "a", some ["a"])
    ∧ "a" ∈ ["a"] :=
  ⟨by decide, by decide⟩

/-- Claim C2 as amended: for every selection that passes the eligibility
check and yields a nonempty document-ordered sequence (so the pop of the
top element succeeds), in a document whose element ids are unique, the top
element returned by `get_sorted_ids` is the last id of the document-ordered
flattened sequence and does not occur in the returned list of other ids. -/
theorem pathops_c2 (opts : Options) (root : Node) (selected : List Node)
    (top_path : String) (other_paths : List String) (evs : List Event)
    (hnodup : (root.iter.filterMap (fun m => getAttr m "id")).Nodup)
    (hres : get_sorted_ids opts root selected =
      (.ok (some top_path, some other_paths), evs)) :
    ∃ idl, (get_selected_ids opts selected).1 = some idl
      ∧ z_iter root.iter idl = other_paths ++ [top_path]
      ∧ top_path ∉ other_paths := by
  rcases hg : get_selected_ids opts selected with ⟨oidl, evs0⟩
  cases oidl with
  | none =>
    rw [get_sorted_ids, hg] at hres
    simp at hres
  | some idl =>
    rw [get_sorted_ids, hg] at hres
    cases hlast : (z_iter root.iter idl).getLast? with
    | none =>
      simp only [hlast] at hres
      simp at hres
    | some t =>
      simp only [hlast, Prod.mk.injEq, Except.ok.injEq, Option.some.injEq] at hres
      obtain ⟨⟨ht, hoth⟩, _⟩ := hres
      have hne : z_iter root.iter idl ≠ [] := by
        intro h0
        rw [h0] at hlast
        simp at hlast
      have hdec : (z_iter root.iter idl).dropLast ++
          [(z_iter root.iter idl).getLast hne] = z_iter root.iter idl :=
        List.dropLast_append_getLast hne
      have hlast2 : (z_iter root.iter idl).getLast hne = t := by
        have := List.getLast?_eq_getLast_of_ne_nil hne
        rw [hlast] at this
        exact (Option.some.injEq _ _ ▸ this.symm)
      have hnd : (z_iter root.iter idl).Nodup :=
        ((z_iter_sublist root.iter idl)).nodup hnodup
      refine ⟨idl, rfl, ?_, ?_⟩
      · rw [← hoth, ← ht, ← hlast2, hdec]
      · rw [← hdec] at hnd
        have hdisj := (List.nodup_append.mp hnd).2.2
        intro hmem
        rw [← hoth] at hmem
        exact hdisj hmem (by rw [hlast2, ht]; exact List.mem_singleton_self _)

/-- Witness for C2 (amended) at a two-path document with unique ids. -/
theorem pathops_c2_witness :
    (exTwoRoot.iter.filterMap (fun m => getAttr m "id")).Nodup
    ∧ ∃ idl, (get_selected_ids default_options [exP1, exP2]).1 = some idl
      ∧ z_iter exTwoRoot.iter idl = ["p1"] ++ ["p2"]
      ∧ "p2" ∉ ["p1"] :=
  ⟨by decide,
   pathops_c2 default_options exTwoRoot [exP1, exP2] "p2" ["p1"] []
     (by decide) (by decide)⟩

mutual

theorem recurse_ids_append (opts : Options) :
    ∀ (node : Node) (id_list : List (Option String)) (level current : Nat),
      (recurse_selection opts node id_list level current).1 =
        id_list ++ (recurse_selection opts node [] level current).1
  | .mk t a cs, id_list, level, current => by
    simp only [recurse_selection]
    split_ifs <;>
      simp [recurse_children_ids_append opts cs id_list level (current + 1),
        List.append_assoc]

theorem recurse_children_ids_append (opts : Options) :
    ∀ (nodes : List Node) (id_list : List (Option String)) (level current : Nat),
      (recurse_children opts nodes id_list level current).1 =
        id_list ++ (recurse_children opts nodes [] level current).1
  | [], id_list, level, current => by simp [recurse_children]
  | c :: cs, id_list, level, current => by
    simp only [recurse_children]
    rw [recurse_children_ids_append opts cs
          (recurse_selection opts c id_list level current).1 level current,
        recurse_children_ids_append opts cs
          (recurse_selection opts c [] level current).1 level current,
        recurse_ids_append opts c id_list level current]
    simp [List.append_assoc]

end

mutual

theorem recurse_ids_level0 (opts : Options) :
    ∀ (node : Node) (current : Nat),
      (recurse_selection opts node [] 0 current).1 = specFlatIds node
  | .mk t a cs, current => by
    simp only [recurse_selection, specFlatIds]
    split_ifs <;>
      simp_all [recurse_children_ids_level0 opts cs (current + 1)]

theorem recurse_children_ids_level0 (opts : Options) :
    ∀ (nodes : List Node) (current : Nat),
      (recurse_children opts nodes [] 0 current).1 = specFlatIdsList nodes
  | [], current => by simp [recurse_children, specFlatIdsList]
  | c :: cs, current => by
    simp only [recurse_children, specFlatIdsList]
    rw [recurse_children_ids_append opts cs
          (recurse_selection opts c [] 0 current).1 0 current,
        recurse_ids_level0 opts c current,
        recurse_children_ids_level0 opts cs current]

end

theorem recurse_ids_level1_inner (opts : Options) (node : Node)
    (current : Nat) (hcur : 1 ≤ current) :
    (recurse_selection opts node [] 1 current).1 =
      (if does_pathops node then [getAttr node "id"] else []) := by
  cases node with
  | mk t a cs =>
    simp only [recurse_selection]
    have hc : ¬(1 = 0 ∨ current + 1 ≤ 1) := by omega
    rw [if_neg hc]
    split_ifs <;> simp

theorem recurse_ids_level1_children (opts : Options) :
    ∀ (nodes : List Node),
      (recurse_children opts nodes [] 1 1).1 =
        (nodes.filter (fun c => does_pathops c)).map
          (fun c => getAttr c "id") := by
  intro nodes
  induction nodes with
  | nil => simp [recurse_children]
  | cons c cs ih =>
    simp only [recurse_children]
    rw [recurse_children_ids_append opts cs
          (recurse_selection opts c [] 1 1).1 1 1,
        recurse_ids_level1_inner opts c 1 le_rfl, ih]
    by_cases hd : does_pathops c = true <;> simp [List.filter_cons, hd]

theorem recurse_ids_level1 (opts : Options) (node : Node) :
    (recurse_selection opts node [] 1 0).1 = specOneLevelIds node := by
  cases node with
  | mk t a cs =>
    simp only [recurse_selection, specOneLevelIds]
    by_cases hg : is_group (Node.mk t a cs) = true <;>
      by_cases hd : does_pathops (Node.mk t a cs) = true <;>
        simp [hg, hd, recurse_ids_level1_children opts cs, Node.children]

theorem selection_ids_flatMap (opts : Options) (selected : List Node) :
    selection_ids opts selected =
      selected.flatMap (fun n =>
        (recurse_selection opts n [] (if opts.recursive_sel then 0 else 1)
          0).1) := by
  unfold selection_ids selection_flatten
  have main : ∀ (level : Nat) (sel : List Node)
      (acc : List (Option String) × List Event),
      (sel.foldl (fun a n =>
        let r := recurse_selection opts n a.1 level 0
        (r.1, a.2 ++ r.2)) acc).1 =
      acc.1 ++ sel.flatMap (fun n => (recurse_selection opts n [] level 0).1) := by
    intro level sel
    induction sel with
    | nil => intro acc; simp
    | cons n ns ih =>
      intro acc
      rw [List.foldl_cons, ih, List.flatMap_cons]
      simp only []
      rw [recurse_ids_append opts n acc.1 level 0]
      simp [List.append_assoc]
  exact (main _ selected ([], [])).trans (by simp)

lemma self_mem_iter (n : Node) : n ∈ n.iter := by
  cases n with
  | mk t a cs =>
    rw [Node.iter]
    exact List.mem_cons_self _ _

lemma mem_iterList_of_mem : ∀ {cs : List Node} {c : Node}, c ∈ cs →
    ∀ {m : Node}, m ∈ c.iter → m ∈ iterList cs := by
  intro cs
  induction cs with
  | nil => intro c hc; exact absurd hc (List.not_mem_nil c)
  | cons c' cs' ih =>
    intro c hc m hm
    rw [iterList]
    rcases List.mem_cons.mp hc with rfl | hc'
    · exact List.mem_append_left _ hm
    · exact List.mem_append_right _ (ih hc' hm)

mutual

theorem specFlatIds_sound :
    ∀ (n : Node) (x : Option String), x ∈ specFlatIds n →
      ∃ m, m ∈ n.iter ∧ does_pathops m = true ∧ x = getAttr m "id"
  | .mk t a cs, x => by
    intro hx
    simp only [specFlatIds] at hx
    rcases List.mem_append.mp hx with h1 | h1
    · by_cases hg : is_group (Node.mk t a cs) = true
      · rw [if_pos hg] at h1
        obtain ⟨m, c, hc, hm, hdp, hxx⟩ := specFlatIdsList_sound cs x h1
        refine ⟨m, ?_, hdp, hxx⟩
        rw [Node.iter]
        exact List.mem_cons_of_mem _ (mem_iterList_of_mem hc hm)
      · rw [if_neg hg] at h1
        exact absurd h1 (List.not_mem_nil x)
    · by_cases hd : does_pathops (Node.mk t a cs) = true
      · rw [if_pos hd] at h1
        rw [List.mem_singleton] at h1
        exact ⟨Node.mk t a cs, self_mem_iter _, hd, h1⟩
      · rw [if_neg hd] at h1
        exact absurd h1 (List.not_mem_nil x)

theorem specFlatIdsList_sound :
    ∀ (cs : List Node) (x : Option String), x ∈ specFlatIdsList cs →
      ∃ m c, c ∈ cs ∧ m ∈ c.iter ∧ does_pathops m = true ∧ x = getAttr m "id"
  | [], x => by
    intro hx
    exact absurd hx (List.not_mem_nil x)
  | c :: cs, x => by
    intro hx
    simp only [specFlatIdsList] at hx
    rcases List.mem_append.mp hx with h1 | h1
    · obtain ⟨m, hm, hdp, hxx⟩ := specFlatIds_sound c x h1
      exact ⟨m, c, List.mem_cons_self _ _, hm, hdp, hxx⟩
    · obtain ⟨m, c', hc', hm, hdp, hxx⟩ := specFlatIdsList_sound cs x h1
      exact ⟨m, c', List.mem_cons_of_mem _ hc', hm, hdp, hxx⟩

end

theorem specOneLevelIds_sound (n : Node) (x : Option String)
    (hx : x ∈ specOneLevelIds n) :
    ∃ m, m ∈ n.iter ∧ does_pathops m = true ∧ x = getAttr m "id" := by
  cases n with
  | mk t a cs =>
    unfold specOneLevelIds at hx
    rcases List.mem_append.mp hx with h1 | h1
    · by_cases hg : is_group (Node.mk t a cs) = true
      · rw [if_pos hg] at h1
        rcases List.mem_map.mp h1 with ⟨c, hc, rfl⟩
        have hcf := List.mem_filter.mp hc
        refine ⟨c, ?_, hcf.2, rfl⟩
        rw [Node.iter]
        exact List.mem_cons_of_mem _
          (mem_iterList_of_mem hcf.1 (self_mem_iter c))
      · rw [if_neg hg] at h1
        exact absurd h1 (List.not_mem_nil x)
    · by_cases hd : does_pathops (Node.mk t a cs) = true
      · rw [if_pos hd] at h1
        rw [List.mem_singleton] at h1
        exact ⟨Node.mk t a cs, self_mem_iter _, hd, h1⟩
      · rw [if_neg hd] at h1
        exact absurd h1 (List.not_mem_nil x)

theorem selection_ids_sound (opts : Options) (selected : List Node) :
    ∀ x ∈ selection_ids opts selected,
      ∃ m, m ∈ selected.flatMap Node.iter ∧ does_pathops m = true ∧
        x = getAttr m "id" := by
  intro x hx
  rw [selection_ids_flatMap] at hx
  rcases List.mem_flatMap.mp hx with ⟨n, hn, hxn⟩
  by_cases hr : opts.recursive_sel = true
  · rw [if_pos hr, recurse_ids_level0 opts n 0] at hxn
    obtain ⟨m, hm, hdp, hxx⟩ := specFlatIds_sound n x hxn
    exact ⟨m, List.mem_flatMap.mpr ⟨n, hn, hm⟩, hdp, hxx⟩
  · rw [if_neg hr, recurse_ids_level1 opts n] at hxn
    obtain ⟨m, hm, hdp, hxx⟩ := specOneLevelIds_sound n x hxn
    exact ⟨m, List.mem_flatMap.mpr ⟨n, hn, hm⟩, hdp, hxx⟩

lemma selection_ids_perm (opts : Options) {sel sel' : List Node}
    (hp : sel.Perm sel') :
    (selection_ids opts sel).Perm (selection_ids opts sel') := by
  rw [selection_ids_flatMap, selection_ids_flatMap]
  exact hp.flatMap_right _

/-- Claim C1, counterexample to the claim as stated: a selected group
carrying Inkscape's custom-shape marker is itself accepted by
`does_pathops`, so the flattened document-ordered sequence contains the id
of the group container itself (here `g1`), not only ids of descendants. -/
theorem pathops_c1_counterexample :
    is_group exShapeGroup = true
    ∧ exShapeGroup ∈ exShapeRoot.iter
    ∧ getAttr exShapeGroup "id" = some "g1"
    ∧ 2 ≤ (selection_ids default_options [exShapeGroup]).length
    ∧ "g1" ∈ z_iter exShapeRoot.iter
        (selection_ids default_options [exShapeGroup]) :=
  ⟨by decide, by decide, by decide, by decide, by decide⟩

/-- Claim C1 as amended: for every selection with at least two flattened
entries, every id of the flattened sequence is contributed by a node that
`does_pathops` accepts (so a plain group container never contributes its
id; a group is included exactly when it itself carries the custom-shape
marker); with the recursive option the flattening is the full recursive
expansion, without it the one-group-level expansion; and the sequence
produced by `z_iter` is a sublist of the whole document's depth-first id
sequence (document order) and is invariant under permuting the selection. -/
theorem pathops_c1 (opts : Options) (root : Node)
    (selected selected' : List Node)
    (_h2 : 2 ≤ (selection_ids opts selected).length)
    (hperm : selected.Perm selected') :
    (∀ x ∈ selection_ids opts selected,
      ∃ m, m ∈ selected.flatMap Node.iter ∧ does_pathops m = true ∧
        x = getAttr m "id")
    ∧ (opts.recursive_sel = true →
        selection_ids opts selected = selected.flatMap specFlatIds)
    ∧ (opts.recursive_sel = false →
        selection_ids opts selected = selected.flatMap specOneLevelIds)
    ∧ (z_iter root.iter (selection_ids opts selected)).Sublist
        (root.iter.filterMap (fun m => getAttr m "id"))
    ∧ z_iter root.iter (selection_ids opts selected') =
        z_iter root.iter (selection_ids opts selected) := by
  refine ⟨selection_ids_sound opts selected, ?_, ?_,
    z_iter_sublist root.iter _, ?_⟩
  · intro hr
    rw [selection_ids_flatMap]
    simp only [hr, if_true, recurse_ids_level0 opts]
  · intro hr
    rw [selection_ids_flatMap]
    simp only [hr, if_false, Bool.false_eq_true, recurse_ids_level1 opts]
  · exact z_iter_perm root.iter (selection_ids_perm opts hperm.symm)

/-- Witness for C1 (amended) at a concrete two-path selection and its
reversal. -/
theorem pathops_c1_witness :
    (2 ≤ (selection_ids default_options [exP1, exP2]).length
      ∧ ([exP1, exP2].Perm [exP2, exP1]))
    ∧ ((∀ x ∈ selection_ids default_options [exP1, exP2],
        ∃ m, m ∈ [exP1, exP2].flatMap Node.iter ∧ does_pathops m = true ∧
          x = getAttr m "id")
      ∧ (default_options.recursive_sel = true →
          selection_ids default_options [exP1, exP2] =
            [exP1, exP2].flatMap specFlatIds)
      ∧ (default_options.recursive_sel = false →
          selection_ids default_options [exP1, exP2] =
            [exP1, exP2].flatMap specOneLevelIds)
      ∧ (z_iter exTwoRoot.iter
          (selection_ids default_options [exP1, exP2])).Sublist
          (exTwoRoot.iter.filterMap (fun m => getAttr m "id"))
      ∧ z_iter exTwoRoot.iter (selection_ids default_options [exP2, exP1]) =
          z_iter exTwoRoot.iter (selection_ids default_options [exP1, exP2])) :=
  ⟨⟨by decide, by decide⟩,
   pathops_c1 default_options exTwoRoot [exP1, exP2] [exP2, exP1]
     (by decide) (by decide)⟩

@[simp] lemma Node.tag_mk (t : String) (a : List (String × String))
    (cs : List Node) : (Node.mk t a cs).tag = t := rfl

@[simp] lemma Node.attrib_mk (t : String) (a : List (String × String))
    (cs : List Node) : (Node.mk t a cs).attrib = a := rfl

@[simp] lemma Node.children_mk (t : String) (a : List (String × String))
    (cs : List Node) : (Node.mk t a cs).children = cs := rfl

lemma getAttr_mk (t : String) (a : List (String × String)) (cs : List Node)
    (key : String) :
    getAttr (Node.mk t a cs) key =
      (a.find? (fun kv => kv.1 == key)).map (fun kv => kv.2) := rfl

lemma subtree_ids_mk (t : String) (a : List (String × String))
    (cs : List Node) :
    subtree_ids (Node.mk t a cs) =
      (getAttr (Node.mk t a cs) "id").toList ++ forest_ids cs := by
  unfold subtree_ids forest_ids
  rw [Node.iter, List.filterMap_cons]
  cases h : getAttr (Node.mk t a cs) "id" <;> simp [h]

lemma forest_ids_nil : forest_ids [] = [] := rfl

lemma forest_ids_cons (c : Node) (cs : List Node) :
    forest_ids (c :: cs) = subtree_ids c ++ forest_ids cs := by
  unfold forest_ids subtree_ids
  rw [iterList, List.filterMap_append]

lemma mem_forest_ids {x : String} :
    ∀ {cs : List Node}, x ∈ forest_ids cs ↔ ∃ c ∈ cs, x ∈ subtree_ids c := by
  intro cs
  induction cs with
  | nil => simp [forest_ids_nil]
  | cons c cs ih =>
    rw [forest_ids_cons, List.mem_append, ih]
    constructor
    · rintro (h | ⟨c', hc', h⟩)
      · exact ⟨c, List.mem_cons_self _ _, h⟩
      · exact ⟨c', List.mem_cons_of_mem _ hc', h⟩
    · rintro ⟨c', hc', h⟩
      rcases List.mem_cons.mp hc' with rfl | hc''
      · exact Or.inl h
      · exact Or.inr ⟨c', hc'', h⟩

mutual

theorem findFirst_some (p : Node → Bool) :
    ∀ (n d : Node), findFirst p n = some d → d ∈ n.iter ∧ p d = true
  | .mk t a cs, d => by
    intro h
    rw [findFirst] at h
    by_cases hp : p (Node.mk t a cs) = true
    · rw [if_pos hp] at h
      injection h with h
      subst h
      exact ⟨self_mem_iter _, hp⟩
    · rw [if_neg hp] at h
      obtain ⟨hd, hp'⟩ := findFirstList_some p cs d h
      exact ⟨by rw [Node.iter]; exact List.mem_cons_of_mem _ hd, hp'⟩

theorem findFirstList_some (p : Node → Bool) :
    ∀ (cs : List Node) (d : Node), findFirstList p cs = some d →
      d ∈ iterList cs ∧ p d = true
  | [], d => by
    intro h
    simp [findFirstList] at h
  | c :: cs, d => by
    intro h
    rw [findFirstList] at h
    cases hf : findFirst p c with
    | some d' =>
      simp only [hf] at h
      obtain ⟨hd, hp⟩ := findFirst_some p c d' hf
      injection h with h
      subst h
      exact ⟨by rw [iterList]; exact List.mem_append_left _ hd, hp⟩
    | none =>
      simp only [hf] at h
      obtain ⟨hd, hp⟩ := findFirstList_some p cs d h
      exact ⟨by rw [iterList]; exact List.mem_append_right _ hd, hp⟩

end

mutual

theorem findFirst_none_iff (p : Node → Bool) :
    ∀ (n : Node), findFirst p n = none ↔ ∀ m ∈ n.iter, p m = false
  | .mk t a cs => by
    rw [findFirst, Node.iter]
    by_cases hp : p (Node.mk t a cs) = true
    · rw [if_pos hp]
      constructor
      · intro h
        exact absurd h (by simp)
      · intro hall
        have := hall _ (List.mem_cons_self _ _)
        rw [hp] at this
        cases this
    · rw [if_neg hp]
      rw [findFirstList_none_iff p cs]
      constructor
      · intro hall m hm
        rcases List.mem_cons.mp hm with rfl | hm'
        · simpa using hp
        · exact hall m hm'
      · intro hall m hm
        exact hall m (List.mem_cons_of_mem _ hm)

theorem findFirstList_none_iff (p : Node → Bool) :
    ∀ (cs : List Node), findFirstList p cs = none ↔
      ∀ m ∈ iterList cs, p m = false
  | [] => by simp [findFirstList, iterList]
  | c :: cs => by
    rw [findFirstList, iterList]
    cases hf : findFirst p c with
    | some d =>
      simp only [hf]
      constructor
      · intro h
        exact absurd h (by simp)
      · intro hall
        obtain ⟨hd_mem, hd_p⟩ := findFirst_some p c d hf
        have := hall d (List.mem_append_left _ hd_mem)
        rw [hd_p] at this
        cases this
    | none =>
      simp only [hf]
      rw [findFirstList_none_iff p cs]
      have hc := (findFirst_none_iff p c).mp hf
      constructor
      · intro hall m hm
        rcases List.mem_append.mp hm with hm' | hm'
        · exact hc m hm'
        · exact hall m hm'
      · intro hall m hm
        exact hall m (List.mem_append_right _ hm)

end

lemma getElementById_none_iff (r : Node) (h : String) :
    getElementById r h = none ↔ h ∉ subtree_ids r := by
  unfold getElementById subtree_ids
  rw [findFirst_none_iff]
  constructor
  · intro hall hmem
    rcases List.mem_filterMap.mp hmem with ⟨m, hm, hid⟩
    have := hall m hm
    rw [hid] at this
    simp at this
  · intro hnot m hm
    by_cases hb : getAttr m "id" = some h
    · exact absurd (List.mem_filterMap.mpr ⟨m, hm, hb⟩) hnot
    · simp [hb]

mutual

theorem mapFirst_of_none (p : Node → Bool) (f : Node → Node) :
    ∀ (n : Node), findFirst p n = none → mapFirst p f n = (n, false)
  | .mk t a cs => by
    intro h
    rw [findFirst] at h
    rw [mapFirst]
    by_cases hp : p (Node.mk t a cs) = true
    · rw [if_pos hp] at h
      cases h
    · rw [if_neg hp] at h
      rw [if_neg hp, mapFirstList_of_none p f cs h]

theorem mapFirstList_of_none (p : Node → Bool) (f : Node → Node) :
    ∀ (cs : List Node), findFirstList p cs = none →
      mapFirstList p f cs = (cs, false)
  | [] => by intro _; rfl
  | c :: cs => by
    intro h
    rw [findFirstList] at h
    cases hf : findFirst p c with
    | some d =>
      simp only [hf] at h
      exact absurd h (by simp)
    | none =>
      simp only [hf] at h
      simp [mapFirstList, mapFirst_of_none p f c hf,
        mapFirstList_of_none p f cs h]

end

mutual

theorem mapFirst_flag (p : Node → Bool) (f : Node → Node) :
    ∀ (n : Node), (mapFirst p f n).2 = (findFirst p n).isSome
  | .mk t a cs => by
    rw [mapFirst, findFirst]
    by_cases hp : p (Node.mk t a cs) = true
    · rw [if_pos hp, if_pos hp]
      rfl
    · rw [if_neg hp, if_neg hp]
      exact mapFirstList_flag p f cs

theorem mapFirstList_flag (p : Node → Bool) (f : Node → Node) :
    ∀ (cs : List Node), (mapFirstList p f cs).2 = (findFirstList p cs).isSome
  | [] => rfl
  | c :: cs => by
    rw [mapFirstList, findFirstList]
    cases hf : findFirst p c with
    | some d =>
      have hflag : (mapFirst p f c).2 = true := by
        rw [mapFirst_flag p f c, hf]
        rfl
      simp only [hf, hflag, if_true]
      rfl
    | none =>
      have hflag : (mapFirst p f c).2 = false := by
        rw [mapFirst_flag p f c, hf]
        rfl
      simp only [hf, hflag, Bool.false_eq_true, if_false]
      exact mapFirstList_flag p f cs

end

lemma find_defs_parts {root d : Node} (h : find_defs root = some d) :
    (root.tag == "svg:svg") = true ∧
      findFirst (fun n => n.tag == "svg:defs") root = some d := by
  unfold find_defs at h
  by_cases ht : (root.tag == "svg:svg") = true
  · rw [if_pos ht] at h
    exact ⟨ht, h⟩
  · rw [if_neg ht] at h
    cases h

lemma dropIdx2_ids_sub (rem : List (Nat × Nat)) (j : Nat) (x : String) :
    ∀ (gs : List Node) (k0 : Nat),
      x ∈ forest_ids (dropIdx2 rem j gs k0) → x ∈ forest_ids gs := by
  intro gs
  induction gs with
  | nil => intro k0 hx; simp [dropIdx2, forest_ids_nil] at hx
  | cons g gs ih =>
    intro k0 hx
    rw [dropIdx2] at hx
    rw [forest_ids_cons, List.mem_append]
    split at hx
    · exact Or.inr (ih (k0 + 1) hx)
    · rw [forest_ids_cons, List.mem_append] at hx
      rcases hx with hx | hx
      · exact Or.inl hx
      · exact Or.inr (ih (k0 + 1) hx)

lemma dropIdx2_ids_super (rem : List (Nat × Nat)) (j : Nat) (x : String) :
    ∀ (gs : List Node) (k0 : Nat),
      (∀ k g, (j, k0 + k) ∈ rem → gs.get? k = some g → x ∉ subtree_ids g) →
      x ∈ forest_ids gs → x ∈ forest_ids (dropIdx2 rem j gs k0) := by
  intro gs
  induction gs with
  | nil => intro k0 _ hx; simp [forest_ids_nil] at hx
  | cons g gs ih =>
    intro k0 hside hx
    have hshift : ∀ k g', (j, k0 + 1 + k) ∈ rem → gs.get? k = some g' →
        x ∉ subtree_ids g' := by
      intro k g' hk hg
      refine hside (k + 1) g' ?_ hg
      have h' : k0 + (k + 1) = k0 + 1 + k := by omega
      rw [h']
      exact hk
    rw [forest_ids_cons, List.mem_append] at hx
    rw [dropIdx2]
    by_cases hr : (j, k0) ∈ rem
    · rw [if_pos hr]
      rcases hx with hx | hx
      · exact absurd hx (hside 0 g (by simpa using hr) rfl)
      · exact ih (k0 + 1) hshift hx
    · rw [if_neg hr, forest_ids_cons, List.mem_append]
      rcases hx with hx | hx
      · exact Or.inl hx
      · exact Or.inr (ih (k0 + 1) hshift hx)

lemma dropIdx2_mem (rem : List (Nat × Nat)) (j : Nat) :
    ∀ (gs : List Node) (k0 k : Nat) (g : Node),
      gs.get? k = some g → (j, k0 + k) ∉ rem →
      g ∈ dropIdx2 rem j gs k0 := by
  intro gs
  induction gs with
  | nil => intro k0 k g hg; simp at hg
  | cons g' gs ih =>
    intro k0 k g hg hnr
    rw [dropIdx2]
    cases k with
    | zero =>
      injection hg with hg
      subst hg
      rw [if_neg (by simpa using hnr)]
      exact List.mem_cons_self _ _
    | succ k' =>
      have hrec := ih (k0 + 1) k' g hg
        (by
          have h' : k0 + 1 + k' = k0 + (k' + 1) := by omega
          rw [h']
          exact hnr)
      split
      · exact hrec
      · exact List.mem_cons_of_mem _ hrec

lemma keepGrandchildren_ids_sub (rem : List (Nat × Nat)) (j : Nat) (c : Node)
    (x : String) (hx : x ∈ subtree_ids (keepGrandchildren rem j c)) :
    x ∈ subtree_ids c := by
  cases c with
  | mk t a gs =>
    simp only [keepGrandchildren, Node.tag_mk, Node.attrib_mk,
      Node.children_mk, subtree_ids_mk, getAttr_mk] at hx ⊢
    rcases List.mem_append.mp hx with hx | hx
    · exact List.mem_append_left _ hx
    · exact List.mem_append_right _ (dropIdx2_ids_sub rem j x gs 0 hx)

lemma mapWithIdx_ids_sub (rem : List (Nat × Nat)) (x : String) :
    ∀ (cs : List Node) (j0 : Nat),
      x ∈ forest_ids (mapWithIdx (keepGrandchildren rem) cs j0) →
      x ∈ forest_ids cs := by
  intro cs
  induction cs with
  | nil => intro j0 hx; simp [mapWithIdx, forest_ids_nil] at hx
  | cons c cs ih =>
    intro j0 hx
    rw [mapWithIdx, forest_ids_cons, List.mem_append] at hx
    rw [forest_ids_cons, List.mem_append]
    rcases hx with hx | hx
    · exact Or.inl (keepGrandchildren_ids_sub rem j0 c x hx)
    · exact Or.inr (ih (j0 + 1) hx)

lemma mapWithIdx_ids_super (rem : List (Nat × Nat)) (x : String) :
    ∀ (cs : List Node) (j0 : Nat),
      (∀ j k c g, (j0 + j, k) ∈ rem → cs.get? j = some c →
        c.children.get? k = some g → x ∉ subtree_ids g) →
      x ∈ forest_ids cs →
      x ∈ forest_ids (mapWithIdx (keepGrandchildren rem) cs j0) := by
  intro cs
  induction cs with
  | nil => intro j0 _ hx; simp [forest_ids_nil] at hx
  | cons c cs ih =>
    intro j0 hside hx
    rw [forest_ids_cons, List.mem_append] at hx
    rw [mapWithIdx, forest_ids_cons, List.mem_append]
    rcases hx with hx | hx
    · left
      cases c with
      | mk t a gs =>
        simp only [keepGrandchildren, Node.tag_mk, Node.attrib_mk,
          Node.children_mk, subtree_ids_mk, getAttr_mk] at hx ⊢
        rcases List.mem_append.mp hx with hx | hx
        · exact List.mem_append_left _ hx
        · refine List.mem_append_right _
            (dropIdx2_ids_super rem j0 x gs 0 ?_ hx)
          intro k g hk hg
          exact hside 0 k (Node.mk t a gs) g (by simpa using hk) rfl hg
    · right
      refine ih (j0 + 1) ?_ hx
      intro j k c' g hjk hc hg
      refine hside (j + 1) k c' g ?_ hc hg
      have h' : j0 + (j + 1) = j0 + 1 + j := by omega
      rw [h']
      exact hjk

lemma mapWithIdx_grandchild_mem (rem : List (Nat × Nat)) :
    ∀ (cs : List Node) (j0 j k : Nat) (c g : Node),
      cs.get? j = some c → c.children.get? k = some g →
      (j0 + j, k) ∉ rem →
      g ∈ iterList (mapWithIdx (keepGrandchildren rem) cs j0) := by
  intro cs
  induction cs with
  | nil => intro j0 j k c g hc; simp at hc
  | cons c' cs ih =>
    intro j0 j k c g hc hg hnr
    rw [mapWithIdx, iterList]
    cases j with
    | zero =>
      injection hc with hc
      subst hc
      apply List.mem_append_left
      cases c' with
      | mk t a gs =>
        have hgm : g ∈ dropIdx2 rem j0 gs 0 :=
          dropIdx2_mem rem j0 gs 0 k g hg (by simpa using hnr)
        simp only [keepGrandchildren, Node.tag_mk, Node.attrib_mk,
          Node.children_mk]
        rw [Node.iter]
        exact List.mem_cons_of_mem _ (mem_iterList_of_mem hgm (self_mem_iter g))
    | succ j' =>
      apply List.mem_append_right
      refine ih (j0 + 1) j' k c g hc hg ?_
      have h' : j0 + 1 + j' = j0 + (j' + 1) := by omega
      rw [h']
      exact hnr

lemma dropGrandchildren_ids_sub (rem : List (Nat × Nat)) (m : Node)
    (x : String) (hx : x ∈ subtree_ids (dropGrandchildren rem m)) :
    x ∈ subtree_ids m := by
  cases m with
  | mk t a cs =>
    simp only [dropGrandchildren, Node.tag_mk, Node.attrib_mk,
      Node.children_mk, subtree_ids_mk, getAttr_mk] at hx ⊢
    rcases List.mem_append.mp hx with hx | hx
    · exact List.mem_append_left _ hx
    · exact List.mem_append_right _ (mapWithIdx_ids_sub rem x cs 0 hx)

lemma dropGrandchildren_ids_super (rem : List (Nat × Nat)) (defs : Node)
    (x : String)
    (hside : ∀ q ∈ rem, ∀ g, tagref_at defs q = some g → x ∉ subtree_ids g)
    (hx : x ∈ subtree_ids defs) :
    x ∈ subtree_ids (dropGrandchildren rem defs) := by
  cases defs with
  | mk t a cs =>
    simp only [dropGrandchildren, Node.tag_mk, Node.attrib_mk,
      Node.children_mk, subtree_ids_mk, getAttr_mk] at hx ⊢
    rcases List.mem_append.mp hx with hx | hx
    · exact List.mem_append_left _ hx
    · refine List.mem_append_right _ (mapWithIdx_ids_super rem x cs 0 ?_ hx)
      intro j k c g hjk hc hg
      refine hside (j, k) (by simpa using hjk) g ?_
      simp only [tagref_at, Node.children_mk]
      rw [hc]
      simp only [Option.some_bind]
      exact hg

mutual

theorem mapFirst_ids_sub (p : Node → Bool) (f : Node → Node) (x : String)
    (hf : ∀ m, x ∈ subtree_ids (f m) → x ∈ subtree_ids m) :
    ∀ (n : Node), x ∈ subtree_ids (mapFirst p f n).1 → x ∈ subtree_ids n
  | .mk t a cs => by
    intro hx
    rw [mapFirst] at hx
    by_cases hp : p (Node.mk t a cs) = true
    · rw [if_pos hp] at hx
      exact hf _ hx
    · rw [if_neg hp] at hx
      replace hx : x ∈ subtree_ids (Node.mk t a (mapFirstList p f cs).1) := hx
      rw [subtree_ids_mk] at hx
      rw [subtree_ids_mk]
      simp only [getAttr_mk] at hx ⊢
      rcases List.mem_append.mp hx with hx | hx
      · exact List.mem_append_left _ hx
      · exact List.mem_append_right _ (mapFirstList_ids_sub p f x hf cs hx)

theorem mapFirstList_ids_sub (p : Node → Bool) (f : Node → Node) (x : String)
    (hf : ∀ m, x ∈ subtree_ids (f m) → x ∈ subtree_ids m) :
    ∀ (cs : List Node), x ∈ forest_ids (mapFirstList p f cs).1 →
      x ∈ forest_ids cs
  | [] => by
    intro hx
    exact hx
  | c :: cs => by
    intro hx
    rw [mapFirstList] at hx
    by_cases hflag : (mapFirst p f c).2 = true
    · rw [if_pos hflag] at hx
      replace hx : x ∈ forest_ids ((mapFirst p f c).1 :: cs) := hx
      rw [forest_ids_cons, List.mem_append] at hx
      rw [forest_ids_cons, List.mem_append]
      rcases hx with hx | hx
      · exact Or.inl (mapFirst_ids_sub p f x hf c hx)
      · exact Or.inr hx
    · rw [if_neg hflag] at hx
      replace hx : x ∈ forest_ids (c :: (mapFirstList p f cs).1) := hx
      rw [forest_ids_cons, List.mem_append] at hx
      rw [forest_ids_cons, List.mem_append]
      rcases hx with hx | hx
      · exact Or.inl hx
      · exact Or.inr (mapFirstList_ids_sub p f x hf cs hx)

end

mutual

theorem mapFirst_ids_super (p : Node → Bool) (f : Node → Node) (x : String) :
    ∀ (n d : Node), findFirst p n = some d →
      (x ∈ subtree_ids d → x ∈ subtree_ids (f d)) →
      x ∈ subtree_ids n → x ∈ subtree_ids (mapFirst p f n).1
  | .mk t a cs, d => by
    intro hfd hdf hx
    rw [findFirst] at hfd
    rw [mapFirst]
    by_cases hp : p (Node.mk t a cs) = true
    · rw [if_pos hp] at hfd
      injection hfd with hfd
      subst hfd
      rw [if_pos hp]
      exact hdf hx
    · rw [if_neg hp] at hfd
      rw [if_neg hp]
      show x ∈ subtree_ids (Node.mk t a (mapFirstList p f cs).1)
      rw [subtree_ids_mk] at hx
      rw [subtree_ids_mk]
      simp only [getAttr_mk] at hx ⊢
      rcases List.mem_append.mp hx with hx | hx
      · exact List.mem_append_left _ hx
      · exact List.mem_append_right _
          (mapFirstList_ids_super p f x cs d hfd hdf hx)

theorem mapFirstList_ids_super (p : Node → Bool) (f : Node → Node)
    (x : String) :
    ∀ (cs : List Node) (d : Node), findFirstList p cs = some d →
      (x ∈ subtree_ids d → x ∈ subtree_ids (f d)) →
      x ∈ forest_ids cs → x ∈ forest_ids (mapFirstList p f cs).1
  | [], d => by
    intro h
    simp [findFirstList] at h
  | c :: cs, d => by
    intro hfd hdf hx
    rw [findFirstList] at hfd
    rw [mapFirstList]
    rw [forest_ids_cons, List.mem_append] at hx
    cases hf : findFirst p c with
    | some d' =>
      simp only [hf] at hfd
      injection hfd with hfd
      subst hfd
      have hflag : (mapFirst p f c).2 = true := by
        rw [mapFirst_flag p f c, hf]
        rfl
      rw [if_pos hflag]
      show x ∈ forest_ids ((mapFirst p f c).1 :: cs)
      rw [forest_ids_cons, List.mem_append]
      rcases hx with hx | hx
      · exact Or.inl (mapFirst_ids_super p f x c d' hf hdf hx)
      · exact Or.inr hx
    | none =>
      simp only [hf] at hfd
      have hflag : (mapFirst p f c).2 = false := by
        rw [mapFirst_flag p f c, hf]
        rfl
      rw [if_neg (by simp [hflag])]
      show x ∈ forest_ids (c :: (mapFirstList p f cs).1)
      rw [forest_ids_cons, List.mem_append]
      rcases hx with hx | hx
      · exact Or.inl hx
      · exact Or.inr (mapFirstList_ids_super p f x cs d hfd hdf hx)

end

mutual

theorem mapFirst_mem_f (p : Node → Bool) (f : Node → Node) :
    ∀ (n d : Node), findFirst p n = some d →
      ∀ m ∈ Node.iter (f d), m ∈ Node.iter (mapFirst p f n).1
  | .mk t a cs, d => by
    intro hfd m hm
    rw [findFirst] at hfd
    rw [mapFirst]
    by_cases hp : p (Node.mk t a cs) = true
    · rw [if_pos hp] at hfd
      injection hfd with hfd
      subst hfd
      rw [if_pos hp]
      exact hm
    · rw [if_neg hp] at hfd
      rw [if_neg hp]
      show m ∈ Node.iter (Node.mk t a (mapFirstList p f cs).1)
      rw [Node.iter]
      exact List.mem_cons_of_mem _ (mapFirstList_mem_f p f cs d hfd m hm)

theorem mapFirstList_mem_f (p : Node → Bool) (f : Node → Node) :
    ∀ (cs : List Node) (d : Node), findFirstList p cs = some d →
      ∀ m ∈ Node.iter (f d), m ∈ iterList (mapFirstList p f cs).1
  | [], d => by
    intro h
    simp [findFirstList] at h
  | c :: cs, d => by
    intro hfd m hm
    rw [findFirstList] at hfd
    rw [mapFirstList]
    cases hf : findFirst p c with
    | some d' =>
      simp only [hf] at hfd
      injection hfd with hfd
      subst hfd
      have hflag : (mapFirst p f c).2 = true := by
        rw [mapFirst_flag p f c, hf]
        rfl
      rw [if_pos hflag]
      show m ∈ iterList ((mapFirst p f c).1 :: cs)
      rw [iterList]
      exact List.mem_append_left _ (mapFirst_mem_f p f c d' hf m hm)
    | none =>
      simp only [hf] at hfd
      have hflag : (mapFirst p f c).2 = false := by
        rw [mapFirst_flag p f c, hf]
        rfl
      rw [if_neg (by simp [hflag])]
      show m ∈ iterList (c :: (mapFirstList p f cs).1)
      rw [iterList]
      exact List.mem_append_right _ (mapFirstList_mem_f p f cs d hfd m hm)

end

lemma purge_stability (root defs : Node) (hfd : find_defs root = some defs)
    (rem : List (Nat × Nat)) (hrem : ∀ q ∈ rem, q ∈ tagref_positions defs)
    (h : String)
    (hside : ∀ q ∈ tagref_positions defs, ∀ g, tagref_at defs q = some g →
      h ∉ subtree_ids g) :
    (getElementById (dropTagrefs root rem) h).isNone =
      (getElementById root h).isNone := by
  obtain ⟨htag, hff⟩ := find_defs_parts hfd
  have hside' : ∀ q ∈ rem, ∀ g, tagref_at defs q = some g →
      h ∉ subtree_ids g := fun q hq => hside q (hrem q hq)
  have hiff : h ∈ subtree_ids (dropTagrefs root rem) ↔ h ∈ subtree_ids root := by
    unfold dropTagrefs
    rw [if_pos htag]
    constructor
    · exact fun hx => mapFirst_ids_sub _ _ h
        (fun m => dropGrandchildren_ids_sub rem m h) root hx
    · exact fun hx => mapFirst_ids_super _ _ h root defs hff
        (dropGrandchildren_ids_super rem defs h hside') hx
  rw [Bool.eq_iff_iff, Option.isNone_iff_eq_none, Option.isNone_iff_eq_none,
    getElementById_none_iff, getElementById_none_iff]
  exact not_congr hiff

lemma tagrefs_loop_purge_eq (root defs : Node)
    (hfd : find_defs root = some defs)
    (H2 : ∀ p ∈ tagref_positions defs, ∀ h ∈ (tagref_target defs p).toList,
      ∀ q ∈ tagref_positions defs, ∀ g ∈ (tagref_at defs q).toList,
        h ∉ subtree_ids g) :
    ∀ (ps rem : List (Nat × Nat)),
      (∀ p ∈ ps, p ∈ tagref_positions defs) →
      (∀ p ∈ ps, (tagref_target defs p).isSome = true) →
      (∀ q ∈ rem, q ∈ tagref_positions defs) →
      tagrefs_loop root defs "purge" ps rem [] =
        .ok (dropTagrefs root
          (rem ++ ps.filter (fun p =>
            match tagref_target defs p with
            | some h => (getElementById root h).isNone
            | none => false))) := by
  intro ps
  induction ps with
  | nil =>
    intro rem _ _ _
    simp [tagrefs_loop, applyPlaceholders]
  | cons p ps ih =>
    intro rem hps hsome hrem
    have hp : p ∈ tagref_positions defs := hps p (List.mem_cons_self _ _)
    have hsp := hsome p (List.mem_cons_self _ _)
    cases htg : tagref_target defs p with
    | none =>
      rw [htg] at hsp
      cases hsp
    | some h =>
      have htg' := htg
      unfold tagref_target at htg'
      rcases Option.map_eq_some'.mp htg' with ⟨s, hbind, hdrop⟩
      have hstab :
          (getElementById (applyPlaceholders (dropTagrefs root rem) [])
            (strDrop s 1)).isNone = (getElementById root h).isNone := by
        show (getElementById (dropTagrefs root rem) (strDrop s 1)).isNone = _
        rw [hdrop]
        refine purge_stability root defs hfd rem hrem h ?_
        intro q hq g hg
        exact H2 p hp h (by simp [htg]) q hq g (by simp [hg])
      rw [tagrefs_loop]
      simp only [hbind]
      rw [hstab]
      by_cases hdec : (getElementById root h).isNone = true
      · rw [if_pos hdec]
        simp only [if_true]
        rw [ih (rem ++ [p])
          (fun q hq => hps q (List.mem_cons_of_mem _ hq))
          (fun q hq => hsome q (List.mem_cons_of_mem _ hq))
          (by
            intro q hq
            rcases List.mem_append.mp hq with hq | hq
            · exact hrem q hq
            · rw [List.mem_singleton] at hq
              subst hq
              exact hp)]
        rw [List.filter_cons_of_pos (by rw [htg]; exact hdec),
          List.append_assoc]
        rfl
      · rw [if_neg hdec]
        rw [ih rem
          (fun q hq => hps q (List.mem_cons_of_mem _ hq))
          (fun q hq => hsome q (List.mem_cons_of_mem _ hq))
          hrem]
        rw [List.filter_cons_of_neg (by rw [htg]; simpa using hdec)]

/-- Claim C7, counterexample to the claim as stated: after a purge in which
tagref B (which itself carried the id `idB` and pointed at a missing id) was
removed, tagref A — whose target `idB` is absent from the final document —
is left in place: removals are decided against the document as it stands at
each check, not against the final document. -/
theorem pathops_c7_counterexample :
    update_tagrefs exTagRoot "purge" =
      .ok (.mk "svg:svg" []
        [.mk "svg:defs" [] [.mk "inkscape:tag" [] [exTagrefA]]])
    ∧ getElementById
        (.mk "svg:svg" [] [.mk "svg:defs" [] [.mk "inkscape:tag" [] [exTagrefA]]])
        "idB" = none
    ∧ getAttr exTagrefA "xlink:href" = some "#idB" :=
  ⟨by decide, by decide, by decide⟩

/-- Claim C7 as amended: `update_tagrefs` in purge mode examines the tagrefs
in document order, removing each one whose referenced target id is absent
from the document as it stands at that check; provided every tagref carries
an href and no tagref's target id is carried inside any tagref subtree, the
checks are insensitive to earlier removals, so the purge removes exactly
those tagrefs whose target id is absent from the original (equivalently the
final) document and leaves every other tagref in place. -/
theorem pathops_c7 (root defs : Node)
    (hfd : find_defs root = some defs)
    (H1 : ∀ p ∈ tagref_positions defs, (tagref_target defs p).isSome = true)
    (H2 : ∀ p ∈ tagref_positions defs, ∀ h ∈ (tagref_target defs p).toList,
      ∀ q ∈ tagref_positions defs, ∀ g ∈ (tagref_at defs q).toList,
        h ∉ subtree_ids g) :
    update_tagrefs root "purge" =
      .ok (dropTagrefs root (purge_decisions root defs))
    ∧ (∀ p ∈ tagref_positions defs,
        (p ∈ purge_decisions root defs ↔
          ∃ h, tagref_target defs p = some h ∧ getElementById root h = none))
    ∧ (∀ p ∈ tagref_positions defs, p ∉ purge_decisions root defs →
        ∀ tr, tagref_at defs p = some tr →
          tr ∈ Node.iter (dropTagrefs root (purge_decisions root defs))) := by
  obtain ⟨htag, hff⟩ := find_defs_parts hfd
  refine ⟨?_, ?_, ?_⟩
  · rw [update_tagrefs, get_defs, hfd]
    rw [tagrefs_loop_purge_eq root defs hfd H2 (tagref_positions defs) []
      (fun q hq => hq) H1 (fun q hq => absurd hq (List.not_mem_nil q))]
    rw [List.nil_append]
    rfl
  · intro p hp
    rw [purge_decisions, List.mem_filter]
    constructor
    · rintro ⟨-, hdec⟩
      cases htg : tagref_target defs p with
      | none =>
        rw [htg] at hdec
        cases hdec
      | some h =>
        rw [htg] at hdec
        refine ⟨h, rfl, ?_⟩
        simpa [Option.isNone_iff_eq_none] using hdec
    · rintro ⟨h, htg, hnone⟩
      refine ⟨hp, ?_⟩
      rw [htg]
      simp [hnone]
  · intro p hp hnot tr htr
    rcases Option.bind_eq_some.mp htr with ⟨c, hc, hg⟩
    unfold dropTagrefs
    rw [if_pos htag]
    refine mapFirst_mem_f _ _ root defs hff tr ?_
    cases defs with
    | mk t a cs =>
      simp only [dropGrandchildren, Node.tag_mk, Node.attrib_mk,
        Node.children_mk]
      rw [Node.iter]
      refine List.mem_cons_of_mem _ ?_
      refine mapWithIdx_grandchild_mem (purge_decisions root (Node.mk t a cs))
        cs 0 p.1 p.2 c tr ?_ hg ?_
      · exact hc
      · simpa using hnot

/-- Witness for C7 (amended) at a concrete two-tagref document: the tagref
whose target exists is kept in place, the one with a missing target is
removed, with the decisions taken against the original document. -/
theorem pathops_c7_witness :
    (find_defs exPurgeRoot = some exPurgeDefs
      ∧ (∀ p ∈ tagref_positions exPurgeDefs,
          (tagref_target exPurgeDefs p).isSome = true))
    ∧ (update_tagrefs exPurgeRoot "purge" =
        .ok (dropTagrefs exPurgeRoot (purge_decisions exPurgeRoot exPurgeDefs))
      ∧ (∀ p ∈ tagref_positions exPurgeDefs,
          (p ∈ purge_decisions exPurgeRoot exPurgeDefs ↔
            ∃ h, tagref_target exPurgeDefs p = some h ∧
              getElementById exPurgeRoot h = none))
      ∧ (∀ p ∈ tagref_positions exPurgeDefs,
          p ∉ purge_decisions exPurgeRoot exPurgeDefs →
          ∀ tr, tagref_at exPurgeDefs p = some tr →
            tr ∈ Node.iter
              (dropTagrefs exPurgeRoot
                (purge_decisions exPurgeRoot exPurgeDefs)))) :=
  ⟨⟨by decide, by decide⟩,
   pathops_c7 exPurgeRoot exPurgeDefs (by decide) (by decide) (by decide)⟩
